import Mathlib

/-!
Verification development for the coach-contact extraction pipeline
(`app.py`).  The Python source is shallowly embedded: strings are
`List Char`, the regular expressions used by the source are embedded as
executable scanners with the exact matching semantics of CPython `re`
for those concrete patterns, Python `set`s of strings are embedded as
duplicate-free lists built by insertion order, and the DOM produced by
BeautifulSoup is embedded as a tree of element and text nodes with the
CSS-selector fragments that the source uses.  Network fetching is an
oracle `Env.fetch : Str → Option Node`; `none` models a raised request
exception, `some page` a successful fetch of an already-parsed page.
-/

abbrev Str := List Char

/-- Python `\s` on the ASCII range: space, tab, newline, carriage return,
vertical tab, form feed. -/
def isWS (c : Char) : Bool :=
  c = ' ' || c = '\t' || c = '\n' || c = '\r' || c = Char.ofNat 11 || c = Char.ofNat 12

/-- Python word character for `\b` boundaries: `[A-Za-z0-9_]`. -/
def isWordChar (c : Char) : Bool :=
  ('A' ≤ c && c ≤ 'Z') || ('a' ≤ c && c ≤ 'z') || ('0' ≤ c && c ≤ '9') || c = '_'

/-- ASCII lower-casing, as Python `str.lower` acts on the characters
appearing in this development. -/
def lowerChar (c : Char) : Char :=
  if 'A' ≤ c && c ≤ 'Z' then Char.ofNat (c.toNat + 32) else c

/-- ASCII upper-casing, as Python `str.upper` acts on the characters
appearing in this development. -/
def upperChar (c : Char) : Char :=
  if 'a' ≤ c && c ≤ 'z' then Char.ofNat (c.toNat - 32) else c

def pyLower (s : Str) : Str := s.map lowerChar

def pyUpper (s : Str) : Str := s.map upperChar

/-- Python `str.strip()`: drop leading and trailing whitespace. -/
def pyStrip (s : Str) : Str :=
  ((s.dropWhile isWS).reverse.dropWhile isWS).reverse

/-- Helper for `collapseWS`: `prevWS` records whether the previously
emitted character came from a whitespace run. -/
def collapseWSAux : Bool → Str → Str
  | _, [] => []
  | prevWS, c :: cs =>
    if isWS c then
      if prevWS then collapseWSAux true cs else ' ' :: collapseWSAux true cs
    else c :: collapseWSAux false cs

/-- Python `re.sub(r"\s+", " ", s)`: every maximal whitespace run becomes
a single space. -/
def collapseWS (s : Str) : Str := collapseWSAux false s

/-- `norm` from the source: `re.sub(r"\s+", " ", s.strip().lower())`. -/
def norm (s : Str) : Str := collapseWS (pyLower (pyStrip s))

/-- Python substring containment `pat in s`. -/
def containsSub (pat : Str) : Str → Bool
  | [] => pat.isEmpty
  | c :: cs => pat.isPrefixOf (c :: cs) || containsSub pat cs

/-- Python `str.split()` with no argument: split on whitespace runs,
discarding empty pieces.  `cur` is the current word, reversed. -/
def wordsOfAux (cur : Str) : Str → List Str
  | [] => if cur.isEmpty then [] else [cur.reverse]
  | c :: cs =>
    if isWS c then
      if cur.isEmpty then wordsOfAux [] cs else cur.reverse :: wordsOfAux [] cs
    else wordsOfAux (c :: cur) cs

def wordsOf (s : Str) : List Str := wordsOfAux [] s

/-- Association-list lookup (Python `dict.get`). -/
def lookupA {α β : Type} [DecidableEq α] (l : List (α × β)) (k : α) : Option β :=
  match l with
  | [] => none
  | (k', v) :: rest => if k = k' then some v else lookupA rest k

/-- Python `set.add` on the list embedding of a string set: append if not
already (exactly) present. -/
def insertS (l : List Str) (e : Str) : List Str :=
  if l.contains e then l else l ++ [e]

/-- Python `set.update`: add every element of `b` to `a`. -/
def unionS (a b : List Str) : List Str := b.foldl insertS a

/-- Rebuild a set from a list of elements (the source's final
`{e.strip() for e in emails if e.strip()}` comprehensions). -/
def dedupSet (l : List Str) : List Str := l.foldl insertS []

/-- Python string `<=` (lexicographic by code point). -/
def lexLe : Str → Str → Bool
  | [], _ => true
  | _ :: _, [] => false
  | a :: as_, b :: bs =>
    if a.toNat < b.toNat then true
    else if b.toNat < a.toNat then false
    else lexLe as_ bs

/-- Join a list of strings with a separator (Python `sep.join`). -/
def joinSepStr (sep : Str) : List Str → Str
  | [] => []
  | [s] => s
  | s :: rest => s ++ sep ++ joinSepStr sep rest

/-! ## De-obfuscation (`OBFUSCATIONS`, `deobfuscate`)

Each entry of the source's `OBFUSCATIONS` list is one of two regex
shapes, both case-insensitive: `\s*LIT\s*` (`spaced = false`) or
`\s+WORD\s+` (`spaced = true`).  Because the literal never starts with a
whitespace character, a CPython match of either shape at a given
position is exactly: the maximal whitespace run from that position
(required non-empty for the spaced shape), then the literal
(case-insensitively), then the maximal trailing whitespace run (required
non-empty for the spaced shape).  `re.sub` replaces the leftmost match
and continues scanning after it; `goPat` implements exactly that, with
fuel `s.length` (each replacement consumes at least one character, so
that fuel always suffices). -/

structure Pat where
  spaced : Bool
  word : Str
  repl : Char

/-- Case-insensitive literal match; `lit` is lowercase.  Returns the
rest of the input on success. -/
def litMatch : Str → Str → Option Str
  | [], s => some s
  | _ :: _, [] => none
  | l :: ls, c :: cs => if lowerChar c = l then litMatch ls cs else none

/-- Try to match one obfuscation pattern at the start of `s`, returning
the input remaining after the match. -/
def tryPat (p : Pat) (s : Str) : Option Str :=
  if p.spaced && (s.takeWhile isWS).isEmpty then none
  else
    match litMatch p.word (s.dropWhile isWS) with
    | none => none
    | some r =>
      if p.spaced && (r.takeWhile isWS).isEmpty then none
      else some (r.dropWhile isWS)

/-- `re.sub` scan: leftmost match replaced by `p.repl`, scan resumes
after the match. -/
def goPat (p : Pat) : Nat → Str → Str
  | 0, s => s
  | _ + 1, [] => []
  | f + 1, c :: cs =>
    match tryPat p (c :: cs) with
    | some r => p.repl :: goPat p f r
    | none => c :: goPat p f cs

def applyPat (p : Pat) (s : Str) : Str := goPat p s.length s

def atBrPat : Pat := ⟨false, "[at]".toList, '@'⟩
def atParPat : Pat := ⟨false, "(at)".toList, '@'⟩
def atSpPat : Pat := ⟨true, "at".toList, '@'⟩
def dotBrPat : Pat := ⟨false, "[dot]".toList, '.'⟩
def dotParPat : Pat := ⟨false, "(dot)".toList, '.'⟩
def dotSpPat : Pat := ⟨true, "dot".toList, '.'⟩

/-- The source's `OBFUSCATIONS` list, in order: the three at-sign
substitutions, then the three dot substitutions. -/
def OBFUSCATIONS : List Pat :=
  [atBrPat, atParPat, atSpPat, dotBrPat, dotParPat, dotSpPat]

/-- `deobfuscate` from the source: apply the substitutions in list
order. -/
def deobfuscate (t : Str) : Str :=
  OBFUSCATIONS.foldl (fun acc p => applyPat p acc) t

/-- The first three substitutions of `OBFUSCATIONS` (at-sign markers). -/
def applyAtPats (t : Str) : Str :=
  applyPat atSpPat (applyPat atParPat (applyPat atBrPat t))

/-- The last three substitutions of `OBFUSCATIONS` (dot markers). -/
def applyDotPats (t : Str) : Str :=
  applyPat dotSpPat (applyPat dotParPat (applyPat dotBrPat t))

/-! ## The email pattern (`EMAIL_RE`)

`EMAIL_RE = [A-Z0-9._%+-]+@[A-Z0-9.-]+\.[A-Z]{2,}` with `IGNORECASE`.
A CPython match at a fixed start position: the greedy local-part run
must be followed immediately by `@` (no backtracking can help, since `@`
is not a local character); after the `@`, the greedy domain run is
backtracked to the largest position `d ≥ 1` holding `.` that is followed
by an alpha run of length at least 2; the alpha run is then taken
greedily.  `findall` scans positions left to right and resumes after
each match. -/

def isLocalChar (c : Char) : Bool :=
  ('A' ≤ c && c ≤ 'Z') || ('a' ≤ c && c ≤ 'z') || ('0' ≤ c && c ≤ '9') ||
  c = '.' || c = '_' || c = '%' || c = '+' || c = '-'

def isDomainChar (c : Char) : Bool :=
  ('A' ≤ c && c ≤ 'Z') || ('a' ≤ c && c ≤ 'z') || ('0' ≤ c && c ≤ '9') ||
  c = '.' || c = '-'

def isAlphaChar (c : Char) : Bool := ('A' ≤ c && c ≤ 'Z') || ('a' ≤ c && c ≤ 'z')

/-- Backtracking choice of the dot inside the domain run `dom`: the
largest index `d ≥ 1` with `dom[d] = '.'` followed by an alpha run of
length at least 2.  The counter starts at `dom.length - 1` and counts
down; returns `(d, alphaRunLength)`. -/
def bestDot (dom : Str) : Nat → Option (Nat × Nat)
  | 0 => none
  | d + 1 =>
    match dom.drop (d + 1) with
    | '.' :: rest =>
      let a := (rest.takeWhile isAlphaChar).length
      if 2 ≤ a then some (d + 1, a) else bestDot dom d
    | _ => bestDot dom d

/-- `EMAIL_RE` match anchored at the start of `s`; returns the match and
the rest of the input. -/
def emailMatchAt (s : Str) : Option (Str × Str) :=
  let loc := s.takeWhile isLocalChar
  if loc.isEmpty then none
  else
    match s.dropWhile isLocalChar with
    | '@' :: r2 =>
      let dom := r2.takeWhile isDomainChar
      match bestDot dom (dom.length - 1) with
      | some (d, a) => some (loc ++ '@' :: dom.take (d + 1 + a), r2.drop (d + 1 + a))
      | none => none
    | _ => none

def goFind : Nat → Str → List Str
  | 0, _ => []
  | _ + 1, [] => []
  | f + 1, c :: cs =>
    match emailMatchAt (c :: cs) with
    | some (m, r) => m :: goFind f r
    | none => goFind f cs

/-- `EMAIL_RE.findall`. -/
def emailFindall (s : Str) : List Str := goFind s.length s

/-! ## Sport normalization block (`normalize_text`, `detect_gender`,
`resolve_sport`) -/

/-- Replace each `&` by `" AND "` (Python `s.replace("&", " AND ")`). -/
def replaceAmp : Str → Str
  | [] => []
  | c :: cs =>
    if c = '&' then ' ' :: 'A' :: 'N' :: 'D' :: ' ' :: replaceAmp cs
    else c :: replaceAmp cs

/-- The character class of `re.sub(r"[’'`./\\\-_:]", " ", s)`. -/
def isSportPunct (c : Char) : Bool :=
  c = Char.ofNat 8217 || c = Char.ofNat 39 || c = Char.ofNat 96 ||
  c = '.' || c = '/' || c = '\\' || c = '-' || c = '_' || c = ':'

/-- `normalize_text` from the source. -/
def normalize_text (s : Str) : Str :=
  if s.isEmpty then []
  else
    pyStrip (collapseWS
      ((replaceAmp (pyUpper (pyStrip s))).map
        (fun c => if isSportPunct c then ' ' else c)))

/-- Case-sensitive literal match at the head of the input. -/
def exactMatch : Str → Str → Option Str
  | [], s => some s
  | _ :: _, [] => none
  | l :: ls, c :: cs => if c = l then exactMatch ls cs else none

/-- One attempted match of `\bW(S)?\b` (case-sensitive, greedy on the
optional `S`) at the start of `s`; `prevOk` says the position is at a
word boundary.  Returns the rest after the match. -/
def tryWordS (w : Str) (prevOk : Bool) (s : Str) : Option Str :=
  if !prevOk then none
  else
    match exactMatch (w ++ ['S']) s with
    | some r =>
      match r with
      | [] => some []
      | c :: _ => if isWordChar c then
          match exactMatch w s with
          | some r' =>
            match r' with
            | [] => some []
            | c' :: _ => if isWordChar c' then none else some r'
          | none => none
        else some r
    | none =>
      match exactMatch w s with
      | some r' =>
        match r' with
        | [] => some []
        | c' :: _ => if isWordChar c' then none else some r'
      | none => none

/-- `re.sub(r"\bW(S)?\b", "", s)` scan with fuel; `prev` is the
preceding character, used for the leading `\b`. -/
def goWordS (w : Str) : Nat → Option Char → Str → Str
  | 0, _, s => s
  | _ + 1, _, [] => []
  | f + 1, prev, c :: cs =>
    let prevOk := match prev with
      | none => true
      | some p => !isWordChar p
    match tryWordS w prevOk (c :: cs) with
    | some r => goWordS w f (some 'S') r
    | none => c :: goWordS w f (some c) cs

/-- `re.sub(r"\bWORD(S)?\b", "", s)`: remove every whole-word occurrence
of `WORD` or `WORDS`.  (After a removal the character preceding the scan
position is a word character — `N` or `S` — so `some 'S'` is passed.) -/
def removeWordS (w : Str) (s : Str) : Str := goWordS w s.length none s

def CANONICAL_SPORTS : List ((Char × Str) × Str) :=
  [(('M', "BASKETBALL".toList), "Men's Basketball".toList),
   (('W', "BASKETBALL".toList), "Women's Basketball".toList),
   (('M', "TENNIS".toList), "Men's Tennis".toList),
   (('W', "TENNIS".toList), "Women's Tennis".toList),
   (('M', "SWIMMING_DIVING".toList), "Men's Swimming & Diving".toList),
   (('W', "SWIMMING_DIVING".toList), "Women's Swimming & Diving".toList)]

def SPORT_ALIASES : List (Str × Str) :=
  [("BASKETBALL".toList, "BASKETBALL".toList),
   ("BBALL".toList, "BASKETBALL".toList),
   ("TENNIS".toList, "TENNIS".toList),
   ("TENN".toList, "TENNIS".toList),
   ("SWIM".toList, "SWIMMING_DIVING".toList),
   ("SWIMMING".toList, "SWIMMING_DIVING".toList),
   ("SWIMMING AND DIVING".toList, "SWIMMING_DIVING".toList),
   ("SWIMMING DIVING".toList, "SWIMMING_DIVING".toList)]

def GENDERED_ALIASES : List (Str × (Char × Str)) :=
  [("MBB".toList, ('M', "BASKETBALL".toList)),
   ("WBB".toList, ('W', "BASKETBALL".toList)),
   ("MTEN".toList, ('M', "TENNIS".toList)),
   ("WTEN".toList, ('W', "TENNIS".toList)),
   ("MSWIM".toList, ('M', "SWIMMING_DIVING".toList)),
   ("WSWIM".toList, ('W', "SWIMMING_DIVING".toList))]

/-- `detect_gender` from the source; the gender is `'W'` or `'M'`. -/
def detect_gender (nrm : Str) : Option Char :=
  if containsSub "WOMEN".toList nrm || (wordsOf nrm).contains "W".toList then some 'W'
  else if containsSub "MEN".toList nrm || (wordsOf nrm).contains "M".toList then some 'M'
  else none

/-- `resolve_sport` from the source, at its only call site
(`default_gender = None`). -/
def resolve_sport (raw : Str) : Option Str :=
  let nrm := normalize_text raw
  match lookupA GENDERED_ALIASES nrm with
  | some (g, cat) => lookupA CANONICAL_SPORTS (g, cat)
  | none =>
    let g? := detect_gender nrm
    let cleaned := pyStrip (removeWordS "MEN".toList (removeWordS "WOMEN".toList nrm))
    match lookupA SPORT_ALIASES cleaned, g? with
    | some cat, some g => lookupA CANONICAL_SPORTS (g, cat)
    | _, _ => none

/-- The main loop's canonicalization step: `resolve_sport`, falling back
to the raw input when unrecognized. -/
def pipeline_sport (raw : Str) : Str :=
  match resolve_sport raw with
  | some c => c
  | none => raw

/-! ## Role classifier (`TARGET_ROLE_KEYWORDS`, `EXCLUDE_ROLE_KEYWORDS`,
`EXCLUDE_ABBREV_PATTERNS`, `is_excluded_block`, `is_target_block`) -/

def TARGET_ROLE_KEYWORDS : List Str :=
  ["head coach".toList, "assistant coach".toList, "asst coach".toList,
   "associate head coach".toList, "associate coach".toList,
   "interim head coach".toList, "coach".toList, "recruiting".toList,
   "recruiting coordinator".toList, "recruiting coord".toList,
   "director of recruiting".toList, "recruiting director".toList,
   "recruiting operations".toList, "recruiting ops".toList,
   "coordinator of recruiting".toList]

def EXCLUDE_ROLE_KEYWORDS : List Str :=
  ["student assistant".toList, "student asst".toList,
   "student-athlete assistant".toList, "graduate assistant".toList,
   "grad assistant".toList, "grad asst".toList]

/-- One attempted case-insensitive match of a `\bPAT\b` abbreviation
pattern at the start of `s`.  `lastIsWord` records whether the pattern's
final character is a word character: for `ga`/`sa` the trailing `\b`
requires the next character to be absent or a non-word character, while
for `g.a.`/`s.a.` (final character `.`) it requires the next character
to exist and be a word character. -/
def abbrevMatchAt (w : Str) (lastIsWord : Bool) (s : Str) : Bool :=
  match litMatch w s with
  | none => false
  | some r =>
    if lastIsWord then
      match r with
      | [] => true
      | c :: _ => !isWordChar c
    else
      match r with
      | [] => false
      | c :: _ => isWordChar c

def hasAbbrevAux (w : Str) (lastIsWord : Bool) : Option Char → Str → Bool
  | _, [] => false
  | prev, c :: cs =>
    let prevOk := match prev with
      | none => true
      | some p => !isWordChar p
    (prevOk && abbrevMatchAt w lastIsWord (c :: cs)) || hasAbbrevAux w lastIsWord (some c) cs

/-- `pat.search(text)` for one of the `EXCLUDE_ABBREV_PATTERNS`. -/
def hasAbbrev (w : Str) (lastIsWord : Bool) (s : Str) : Bool :=
  hasAbbrevAux w lastIsWord none s

/-- The four `EXCLUDE_ABBREV_PATTERNS`, as (lowercased literal,
last-character-is-word-character) pairs:
`\bga\b`, `\bg\.a\.\b`, `\bsa\b`, `\bs\.a\.\b`. -/
def EXCLUDE_ABBREV_PATTERNS : List (Str × Bool) :=
  [("ga".toList, true), ("g.a.".toList, false),
   ("sa".toList, true), ("s.a.".toList, false)]

/-- `is_excluded_block` from the source. -/
def is_excluded_block (text : Str) : Bool :=
  EXCLUDE_ROLE_KEYWORDS.any (fun k => containsSub k text) ||
  EXCLUDE_ABBREV_PATTERNS.any (fun p => hasAbbrev p.1 p.2 text)

/-- `is_target_block` from the source. -/
def is_target_block (text : Str) : Bool :=
  if is_excluded_block text then false
  else TARGET_ROLE_KEYWORDS.any (fun k => containsSub k text)

/-! ## Sport token matcher (`sport_tokens`,
`is_diving_only_for_swim_target`, `sport_match`) -/

/-- The character class kept by `re.sub(r"[^a-z0-9\s']", " ", s)`. -/
def isSportTokChar (c : Char) : Bool :=
  ('a' ≤ c && c ≤ 'z') || ('0' ≤ c && c ≤ '9') || isWS c || c = Char.ofNat 39

/-- `sport_tokens` from the source.  Python set insertion order is kept
as list insertion order; membership is what matters. -/
def sport_tokens (sport : Str) : List Str :=
  let s := pyLower (pyStrip sport)
  let s_clean := pyStrip (collapseWS (s.map (fun c => if isSportTokChar c then c else ' ')))
  let tokens : List Str :=
    if s_clean.isEmpty then []
    else
      insertS (insertS (insertS [] s_clean)
        (s_clean.map (fun c => if c = Char.ofNat 8217 then Char.ofNat 39 else c)))
        (s_clean.filter (fun c => c ≠ Char.ofNat 39))
  let tokens := (wordsOf s_clean).foldl
    (fun acc w => if 4 ≤ w.length then insertS acc w else acc) tokens
  let tokens :=
    if containsSub "swim".toList s_clean || containsSub "swimming".toList s_clean then
      ["swimming".toList, "swim".toList, "swimming and diving".toList,
       "swimming & diving".toList, "swim and dive".toList, "swim & dive".toList,
       "swimdive".toList].foldl insertS tokens
    else tokens
  let tokens :=
    if containsSub "basketball".toList s_clean then
      let tokens := insertS tokens "basketball".toList
      let tokens :=
        if containsSub "men".toList s_clean then
          ["mbkb".toList, "m basketball".toList, "mens basketball".toList].foldl insertS tokens
        else tokens
      if containsSub "women".toList s_clean then
        ["wbkb".toList, "w basketball".toList, "womens basketball".toList].foldl insertS tokens
      else tokens
    else tokens
  let tokens :=
    if containsSub "soccer".toList s_clean then
      let tokens := insertS tokens "soccer".toList
      let tokens :=
        if containsSub "men".toList s_clean then
          ["msoc".toList, "mens soccer".toList].foldl insertS tokens
        else tokens
      if containsSub "women".toList s_clean then
        ["wsoc".toList, "womens soccer".toList].foldl insertS tokens
      else tokens
    else tokens
  tokens.filter (fun t => !t.isEmpty)

/-- The tokens the pipeline derives for a raw sport input: the main loop
canonicalizes with `resolve_sport` (falling back to the raw string) and
the matcher then calls `sport_tokens`. -/
def derived_sport_tokens (raw : Str) : List Str := sport_tokens (pipeline_sport raw)

/-- The `has_diving` test inside `is_diving_only_for_swim_target`. -/
def hasDivingMention (text : Str) : Bool :=
  containsSub "diving".toList text ||
  containsSub " dive ".toList (' ' :: text ++ [' ']) ||
  containsSub "diver".toList text

/-- The `has_swim` test inside `is_diving_only_for_swim_target`. -/
def hasSwimMention (text : Str) : Bool :=
  containsSub "swimming".toList text ||
  containsSub " swim ".toList (' ' :: text ++ [' ']) ||
  containsSub "swim&dive".toList text ||
  containsSub "swim and dive".toList text

/-- The guard of `is_diving_only_for_swim_target`: the target sport
mentions swimming. -/
def isSwimTargetSport (sport : Str) : Bool :=
  let s := pyLower (pyStrip sport)
  containsSub "swim".toList s || containsSub "swimming".toList s

/-- `is_diving_only_for_swim_target` from the source. -/
def is_diving_only_for_swim_target (text : Str) (sport : Str) : Bool :=
  if !isSwimTargetSport sport then false
  else hasDivingMention text && !hasSwimMention text

/-- `sport_match` from the source. -/
def sport_match (text : Str) (sport : Str) : Bool :=
  if is_diving_only_for_swim_target text sport then false
  else
    let tks := sport_tokens sport
    if tks.isEmpty then true
    else tks.any (fun tok => containsSub tok text)

/-! ## DOM embedding

A parsed page is a tree of element and text nodes.  Multi-valued
attributes (`class`) are kept separately from string-valued attributes,
mirroring BeautifulSoup, where `tag["class"]` is a list and is therefore
skipped by the source's `isinstance(val, str)` attribute scan. -/

inductive Node where
  | txt (s : Str)
  | el (tag : Str) (classes : List Str) (attrs : List (Str × Str)) (children : List Node)

/-- The CSS selector fragments used by the source. -/
inductive Sel where
  | tag (t : Str)
  | cls (c : Str)
  | tagAttr (t a : Str)
  | tagAttrPre (t a v : Str)
  | tableTr

/-- Does an element (tag, classes, attrs, with `inTable` recording a
`table` ancestor) match a selector? -/
def selMatches (s : Sel) (tag : Str) (classes : List Str) (attrs : List (Str × Str))
    (inTable : Bool) : Bool :=
  match s with
  | .tag t => tag = t
  | .cls c => classes.contains c
  | .tagAttr t a => tag = t && (lookupA attrs a).isSome
  | .tagAttrPre t a v =>
    tag = t &&
      (match lookupA attrs a with
       | some x => v.isPrefixOf x
       | none => false)
  | .tableTr => tag = "tr".toList && inTable

mutual
/-- Matching descendants of a node, in document (pre-)order, the node
itself excluded at the top level by `select`. -/
def selectFrom (s : Sel) (inTable : Bool) : Node → List Node
  | .txt _ => []
  | .el tag classes attrs children =>
    (if selMatches s tag classes attrs inTable then [Node.el tag classes attrs children] else []) ++
      selectChildren s (inTable || tag = "table".toList) children
def selectChildren (s : Sel) (inTable : Bool) : List Node → List Node
  | [] => []
  | n :: ns => selectFrom s inTable n ++ selectChildren s inTable ns
end

/-- `root.select(sel)`: matching proper descendants in document order. -/
def select (root : Node) (s : Sel) : List Node :=
  match root with
  | .txt _ => []
  | .el tag _ _ children => selectChildren s (tag = "table".toList) children

mutual
/-- All text-node strings below a node, in document order (BeautifulSoup
`.strings`). -/
def nodeTexts : Node → List Str
  | .txt s => [s]
  | .el _ _ _ children => listTexts children
def listTexts : List Node → List Str
  | [] => []
  | n :: ns => nodeTexts n ++ listTexts ns
end

mutual
/-- All element descendants of a node, itself excluded (BeautifulSoup
`find_all(True)`), in document order. -/
def elemsBelow : Node → List Node
  | .txt _ => []
  | .el _ _ _ children => elemsBelowList children
def elemsBelowList : List Node → List Node
  | [] => []
  | n :: ns =>
    (match n with
     | .txt _ => []
     | .el tag classes attrs children =>
       Node.el tag classes attrs children :: elemsBelow (Node.el tag classes attrs children)) ++
      elemsBelowList ns
end

/-- `el.get_text(" ", strip=True)`: each descendant string stripped,
empties dropped, joined with single spaces. -/
def get_text (n : Node) : Str :=
  joinSepStr " ".toList (((nodeTexts n).map pyStrip).filter (fun s => !s.isEmpty))

/-- String-valued attribute lookup with default `""`
(`tag.get(attr, "")`). -/
def attrGet (n : Node) (a : Str) : Str :=
  match n with
  | .txt _ => []
  | .el _ _ attrs _ =>
    match lookupA attrs a with
    | some v => v
    | none => []

/-- The string-valued attributes of an element (`tag.attrs`, keeping the
`isinstance(val, str)` values; the multi-valued `class` attribute is
modelled separately and hence, faithfully, not scanned). -/
def attrsOf (n : Node) : List (Str × Str) :=
  match n with
  | .txt _ => []
  | .el _ _ attrs _ => attrs

/-! ## Block segmentation (`find_candidate_blocks`) -/

/-- The ordered selector list from `find_candidate_blocks`. -/
def SELECTORS : List Sel :=
  [.cls "sidearm-staff-directory__item".toList,
   .cls "sidearm-roster-coach".toList,
   .cls "staff-member".toList,
   .cls "coaches-item".toList,
   .cls "coach".toList,
   .cls "bio".toList,
   .tag "article".toList,
   .tag "li".toList,
   .tag "div".toList]

/-- The fallback block: `[soup.body] if soup.body else [soup]`. -/
def fallbackBlocks (soup : Node) : List Node :=
  match (select soup (.tag "body".toList)).head? with
  | some b => [b]
  | none => [soup]

/-- The `for sel in selectors` loop of `find_candidate_blocks`: first
selector yielding between 5 and 400 elements, else the fallback. -/
def selLoop (soup : Node) : List Sel → List Node
  | [] => fallbackBlocks soup
  | sel :: rest =>
    let els := select soup sel
    if 5 ≤ els.length && els.length ≤ 400 then els else selLoop soup rest

/-- `find_candidate_blocks` from the source. -/
def find_candidate_blocks (soup : Node) : List Node :=
  let rows := select soup .tableTr
  if 5 ≤ rows.length then rows else selLoop soup SELECTORS

/-- `block_text` from the source. -/
def block_text (el : Node) : Str := norm (deobfuscate (get_text el))

/-! ## Email extraction from blocks and pages -/

/-- Extraction from one `mailto:` href:
`href.split("mailto:", 1)[1].split("?", 1)[0].strip()`.  `afterFirst`
is Python `split(pat, 1)[1]` for an input in which `pat` occurs (the
selector guarantees the `mailto:` prefix at the call sites). -/
def afterFirst (pat : Str) : Str → Str
  | [] => []
  | c :: cs => if pat.isPrefixOf (c :: cs) then (c :: cs).drop pat.length else afterFirst pat cs

def mailtoPayload (href : Str) : Str :=
  pyStrip ((afterFirst "mailto:".toList href).takeWhile (fun c => c ≠ '?'))

/-- The shared `for a in X.select('a[href^="mailto:"]')` loop body: add
the payload if non-empty. -/
def mailtoCollect (acc : List Str) (anchors : List Node) : List Str :=
  anchors.foldl
    (fun acc a =>
      let e := mailtoPayload (attrGet a "href".toList)
      if e.isEmpty then acc else insertS acc e) acc

/-- `emails_in_block` from the source. -/
def emails_in_block (el : Node) : List Str :=
  let emails := mailtoCollect [] (select el (.tagAttrPre "a".toList "href".toList "mailto:".toList))
  let txt := deobfuscate (get_text el)
  let emails := unionS emails (emailFindall txt)
  dedupSet ((emails.map pyStrip).filter (fun e => !e.isEmpty))

/-- `extract_emails_anywhere` from the source: `mailto:` anchors, the
de-obfuscated page text, and every string-valued attribute of every
element. -/
def extract_emails_anywhere (soup : Node) : List Str :=
  let emails := mailtoCollect [] (select soup (.tagAttrPre "a".toList "href".toList "mailto:".toList))
  let emails := unionS emails (emailFindall (deobfuscate (get_text soup)))
  let emails := (elemsBelow soup).foldl
    (fun acc el => (attrsOf el).foldl
      (fun acc2 kv => unionS acc2 (emailFindall (deobfuscate kv.2))) acc) emails
  dedupSet ((emails.map pyStrip).filter (fun e => !e.isEmpty))

/-! ## URLs (simplified models of `urllib.parse`, an external library) -/

/-- Index just after the first `"://"`, if any. -/
def schemeEnd : Str → Option Nat
  | [] => none
  | c :: cs =>
    if "://".toList.isPrefixOf (c :: cs) then some 3
    else match schemeEnd cs with
      | some n => some (n + 1)
      | none => none

def isNetlocEnd (c : Char) : Bool := c = '/' || c = '?' || c = '#'

/-- `urlparse(u).netloc`, simplified: the part between `"://"` and the
next `/`, `?` or `#`. -/
def netlocOf (u : Str) : Str :=
  match schemeEnd u with
  | some n => (u.drop n).takeWhile (fun c => !isNetlocEnd c)
  | none => []

/-- `urlparse(u).path`, simplified. -/
def pathOf (u : Str) : Str :=
  match schemeEnd u with
  | some n => ((u.drop n).dropWhile (fun c => !isNetlocEnd c)).takeWhile (fun c => c ≠ '?' && c ≠ '#')
  | none => u.takeWhile (fun c => c ≠ '?' && c ≠ '#')

/-- `is_same_domain` from the source (its `urlparse` calls cannot raise
in this model, so the `except` branch is dead). -/
def is_same_domain (a b : Str) : Bool := pyLower (netlocOf a) = pyLower (netlocOf b)

/-- Everything up to and including the last `/` of `u` (empty when `u`
has no slash). -/
def upToLastSlash (u : Str) : Str :=
  (u.reverse.dropWhile (fun c => c ≠ '/')).reverse

/-- `urljoin(base, href)`, simplified: absolute hrefs kept, root-relative
hrefs resolved against the base's scheme and netloc, other hrefs against
the base's directory. -/
def urljoin (base href : Str) : Str :=
  if containsSub "://".toList href then href
  else
    match href with
    | '/' :: _ =>
      (match schemeEnd base with
       | some n => base.take (n - 3)
       | none => []) ++ "://".toList ++ netlocOf base ++ href
    | _ => upToLastSlash base ++ href

/-- The bio path markers from `collect_bio_links_from_target_blocks`. -/
def BIO_PATH_MARKERS : List Str :=
  ["/staff".toList, "/coaches".toList, "/coach".toList, "/people".toList,
   "/person".toList, "/bio".toList, "/roster".toList]

/-- Insertion sort by `lexLe` (Python `sorted` on strings). -/
def sortLexInsert (e : Str) : List Str → List Str
  | [] => [e]
  | x :: xs => if lexLe e x then e :: x :: xs else x :: sortLexInsert e xs

def sortLex : List Str → List Str
  | [] => []
  | x :: xs => sortLexInsert x (sortLex xs)

/-- `collect_bio_links_from_target_blocks` from the source. -/
def collect_bio_links_from_target_blocks (soup : Node) (base_url : Str) (sport : Str)
    (require_sport_match : Bool) : List Str :=
  let blocks := find_candidate_blocks soup
  let links := blocks.foldl
    (fun acc b =>
      let bt := block_text b
      if !is_target_block bt then acc
      else if require_sport_match && !sport_match bt sport then acc
      else
        (select b (.tagAttr "a".toList "href".toList)).foldl
          (fun acc2 a =>
            let href := pyStrip (attrGet a "href".toList)
            if href.isEmpty then acc2
            else if "mailto:".toList.isPrefixOf href || "tel:".toList.isPrefixOf href then acc2
            else
              let abs_url := urljoin base_url href
              if !is_same_domain abs_url base_url then acc2
              else if BIO_PATH_MARKERS.any (fun m => containsSub m (pyLower (pathOf abs_url)))
              then insertS acc2 abs_url
              else acc2) acc) []
  sortLex links

/-- `extract_target_emails_from_page` from the source (the page arrives
already parsed; its `base_url` parameter is unused in the source and
kept here). -/
def extract_target_emails_from_page (soup : Node) (base_url : Str) (sport : Str)
    (require_sport_match : Bool) : List Str :=
  let _ := base_url
  (find_candidate_blocks soup).foldl
    (fun out b =>
      let bt := block_text b
      if !is_target_block bt then out
      else if require_sport_match && !sport_match bt sport then out
      else unionS out (emails_in_block b)) []

/-! ## The per-target pipeline -/

/-- The network oracle: `none` models a raised request exception,
`some page` a fetched and parsed page. -/
structure Env where
  fetch : Str → Option Node

structure Target where
  university : Str
  sport : Str
  url : Str
  staff_directory_url : Str

/-- `extract_from_bios` from the source (`max_bios = 30`; a failed bio
fetch is swallowed by the `try`/`except`; the politeness sleep has no
observable value). -/
def extract_from_bios (env : Env) (base_url : Str) (soup : Node) (sport : Str)
    (require_sport_match : Bool) : List Str :=
  let bio_links := (collect_bio_links_from_target_blocks soup base_url sport require_sport_match).take 30
  bio_links.foldl
    (fun emails u =>
      match env.fetch u with
      | none => emails
      | some bio_soup =>
        let bio_text := norm (deobfuscate (get_text bio_soup))
        if is_excluded_block bio_text then emails
        else unionS emails (extract_emails_anywhere bio_soup)) []

/-- The comparison used by `join_emails`: `key=lambda x: x.lower()`. -/
def keyLowerLe (a b : Str) : Prop := lexLe (pyLower a) (pyLower b) = true

instance : DecidableRel keyLowerLe := fun a b =>
  inferInstanceAs (Decidable (lexLe (pyLower a) (pyLower b) = true))

/-- `join_emails` from the source: `", ".join(sorted(emails,
key=lambda x: x.lower()))` (Python `sorted` is a stable sort; insertion
sort keeping earlier elements first on equal keys models it). -/
def join_emails (emails : List Str) : Str :=
  joinSepStr ", ".toList (List.insertionSort keyLowerLe emails)

/-- `process_one_target` from the source.  `Except.error ()` models an
uncaught exception escaping the function (the unguarded `fetch` calls);
the trailing sleep has no observable value. -/
def process_one_target (env : Env) (t : Target) : Except Unit (List Str) :=
  match env.fetch t.url with
  | none => .error ()
  | some soup =>
    let emails := unionS [] (extract_target_emails_from_page soup t.url t.sport false)
    let emails :=
      if emails.isEmpty then unionS emails (extract_from_bios env t.url soup t.sport false)
      else emails
    if emails.isEmpty && !(pyStrip t.staff_directory_url).isEmpty then
      let sdu := pyStrip t.staff_directory_url
      match env.fetch sdu with
      | none => .error ()
      | some sd_soup =>
        let emails := unionS emails (extract_target_emails_from_page sd_soup sdu t.sport true)
        let emails :=
          if emails.isEmpty then unionS emails (extract_from_bios env sdu sd_soup t.sport true)
          else emails
        .ok emails
    else .ok emails

structure Row where
  university : Str
  emails : Str

/-- The main run loop over the parsed targets: one result row per
target, in order; an exception escaping `process_one_target` is caught
by the run-level handler, which reports the error and emits no rows. -/
def runBatch (env : Env) : List Target → Except Unit (List Row)
  | [] => .ok []
  | t :: ts =>
    match process_one_target env t with
    | .error e => .error e
    | .ok es =>
      match runBatch env ts with
      | .error e => .error e
      | .ok rows => .ok (⟨t.university, join_emails es⟩ :: rows)

/-! ## Spec-side stage machine (for the refinement claim about stage
ordering)

The design document describes the per-target pipeline as an ordered
list of stage functions, tried in sequence and terminal on the first
non-empty email set; stages built from the staff directory exist only
when a `staff_directory_url` is present.  `spec_state_machine` is that
description, written independently of `process_one_target`'s nested
conditionals; the stage bodies reuse the page-level extraction
functions, since the claim is about orchestration. -/

def runStages : List (Unit → Except Unit (List Str)) → Except Unit (List Str)
  | [] => .ok []
  | s :: rest =>
    match s () with
    | .error e => .error e
    | .ok r => if r.isEmpty then runStages rest else .ok r

/-- The ordered stage list for a target: (1) sport-page direct scan and
(2) sport-page bio fallback, role filter only; then, only when a staff
directory is present, (3) directory direct scan and (4) directory bio
fallback, role filter plus mandatory sport-token match. -/
def spec_stages (env : Env) (t : Target) (soup : Node) : List (Unit → Except Unit (List Str)) :=
  let sdu := pyStrip t.staff_directory_url
  [fun _ => .ok (unionS [] (extract_target_emails_from_page soup t.url t.sport false)),
   fun _ => .ok (unionS [] (extract_from_bios env t.url soup t.sport false))] ++
  (if sdu.isEmpty then []
   else
    [fun _ =>
       match env.fetch sdu with
       | none => .error ()
       | some sd => .ok (unionS [] (extract_target_emails_from_page sd sdu t.sport true)),
     fun _ =>
       match env.fetch sdu with
       | none => .error ()
       | some sd => .ok (unionS [] (extract_from_bios env sdu sd t.sport true))])

def spec_state_machine (env : Env) (t : Target) : Except Unit (List Str) :=
  match env.fetch t.url with
  | none => .error ()
  | some soup => runStages (spec_stages env t soup)

/-! ## Concrete fixtures for witnesses and counterexamples -/

/-- A page whose body names a head coach with a plain-text email. -/
def pageOkC1 : Node :=
  .el "[document]".toList [] []
    [.el "html".toList [] []
      [.el "body".toList [] [] [.txt "Head Coach j@x.co".toList]]]

def envC1 : Env :=
  ⟨fun u => if u = "http://ok.edu/a".toList then some pageOkC1 else none⟩

def t1C1 : Target :=
  ⟨"Alpha U".toList, "Tennis".toList, "http://bad.edu/x".toList, []⟩

def t2C1 : Target :=
  ⟨"Beta U".toList, "Tennis".toList, "http://ok.edu/a".toList, []⟩

/-- A page whose body holds the same address in two letter cases. -/
def pageC2 : Node :=
  .el "[document]".toList [] []
    [.el "html".toList [] []
      [.el "body".toList [] [] [.txt "Head Coach A@b.co a@b.co".toList]]]

def envC2 : Env :=
  ⟨fun u => if u = "http://u.edu/x".toList then some pageC2 else none⟩

def tC2 : Target :=
  ⟨"U".toList, "Tennis".toList, "http://u.edu/x".toList, []⟩

/-- A block holding one `mailto:` anchor whose address part ends in a
period. -/
def blockC4 : Node :=
  .el "div".toList [] []
    [.el "a".toList [] [("href".toList, "mailto:john@x.com.".toList)] [.txt "John".toList]]

/-- An anchor with link target `"mailto:" ++ r`. -/
def anchorOf (r : Str) : Node :=
  .el "a".toList [] [("href".toList, "mailto:".toList ++ r)] []

/-- A head-coach block whose text also holds the state abbreviation
`GA`, plus a `mailto:` anchor. -/
def pageC10 : Node :=
  .el "[document]".toList [] []
    [.el "html".toList [] []
      [.el "body".toList [] []
        [.txt "John Smith Head Coach Atlanta, GA".toList,
         .el "a".toList [] [("href".toList, "mailto:john@x.edu".toList)] [.txt "email".toList]]]]

/-- A page with a six-row table. -/
def soupTable : Node :=
  .el "[document]".toList [] []
    [.el "html".toList [] []
      [.el "body".toList [] []
        [.el "table".toList [] []
          [.el "tr".toList [] [] [.txt "r1".toList],
           .el "tr".toList [] [] [.txt "r2".toList],
           .el "tr".toList [] [] [.txt "r3".toList],
           .el "tr".toList [] [] [.txt "r4".toList],
           .el "tr".toList [] [] [.txt "r5".toList],
           .el "tr".toList [] [] [.txt "r6".toList]]]]]

/-- A page with no table rows and no selector hits. -/
def soupPlain : Node :=
  .el "[document]".toList [] []
    [.el "html".toList [] []
      [.el "body".toList [] [] [.txt "nothing here".toList]]]

/-- The gendered shorthand aliases paired with the sport names they
canonicalize to. -/
def sportAliasPairs : List (Str × Str) :=
  [("WBB".toList, "Women's Basketball".toList),
   ("MBB".toList, "Men's Basketball".toList),
   ("MTEN".toList, "Men's Tennis".toList),
   ("WTEN".toList, "Women's Tennis".toList),
   ("MSWIM".toList, "Men's Swimming & Diving".toList),
   ("WSWIM".toList, "Women's Swimming & Diving".toList)]

def okD : Except Unit (List Str) → List Str
  | .ok l => l
  | .error _ => []

def isOkE : Except Unit (List Str) → Bool
  | .ok _ => true
  | .error _ => false

/-! ## Obfuscated-email renderings (for the de-obfuscation claim)

An obfuscated address is rendered from its parts: leading whitespace,
the local part, a marker standing for the at-sign, the inner domain
labels each followed by a marker standing for its dot, the TLD, and
trailing whitespace.  Each marker is the real character itself, or one
of the bracketed/parenthesised/whitespace-surrounded marker forms, in
arbitrary letter case with arbitrary surrounding whitespace. -/

def allWSb (w : Str) : Bool := w.all isWS

def noWSb (t : Str) : Bool := t.all (fun c => !isWS c)

/-- Characters of a rendered domain label: `[A-Za-z0-9-]`. -/
def isLabChar (c : Char) : Bool :=
  isAlphaChar c || ('0' ≤ c && c ≤ '9') || c = '-'

/-- Characters appearing in plain-text chunks of a rendering (local
part, labels, TLD, and the real `@` and `.` characters). -/
def isTextChar (c : Char) : Bool := isLocalChar c || c = '@'

inductive Mark where
  | lit
  | brk (w1 cased w2 : Str)
  | par (w1 cased w2 : Str)
  | spc (w1 cased w2 : Str)
deriving DecidableEq

/-- Validity of a marker for the bare word `w` (`at` or `dot`). -/
def markOK (w : Str) : Mark → Prop
  | .lit => True
  | .brk w1 c w2 => allWSb w1 = true ∧ allWSb w2 = true ∧ pyLower c = '[' :: w ++ [']']
  | .par w1 c w2 => allWSb w1 = true ∧ allWSb w2 = true ∧ pyLower c = '(' :: w ++ [')']
  | .spc w1 c w2 =>
      allWSb w1 = true ∧ w1 ≠ [] ∧ allWSb w2 = true ∧ w2 ≠ [] ∧ pyLower c = w

def renderMark (real : Char) : Mark → Str
  | .lit => [real]
  | .brk w1 c w2 => w1 ++ c ++ w2
  | .par w1 c w2 => w1 ++ c ++ w2
  | .spc w1 c w2 => w1 ++ c ++ w2

structure Obf where
  ws0 : Str
  locpart : Str
  atm : Mark
  mids : List (Str × Mark)
  tld : Str
  ws3 : Str

def midsRender (ms : List (Str × Mark)) (tail : Str) : Str :=
  match ms with
  | [] => tail
  | (lab, m) :: rest => lab ++ renderMark '.' m ++ midsRender rest tail

def renderObf (o : Obf) : Str :=
  o.ws0 ++ o.locpart ++ renderMark '@' o.atm ++ midsRender o.mids (o.tld ++ o.ws3)

def midsCanon (ms : List (Str × Mark)) (tld : Str) : Str :=
  match ms with
  | [] => tld
  | (lab, _) :: rest => lab ++ '.' :: midsCanon rest tld

/-- The address a rendering obfuscates. -/
def canonEmail (o : Obf) : Str := o.locpart ++ '@' :: midsCanon o.mids o.tld

def labelOK (lab : Str) : Prop :=
  lab ≠ [] ∧ (∀ c ∈ lab, isLabChar c = true) ∧
  pyLower lab ≠ "at".toList ∧ pyLower lab ≠ "dot".toList

def locOK (lp : Str) : Prop :=
  lp ≠ [] ∧ (∀ c ∈ lp, isLocalChar c = true) ∧
  pyLower lp ≠ "at".toList ∧ pyLower lp ≠ "dot".toList

def tldOK (tld : Str) : Prop :=
  2 ≤ tld.length ∧ (∀ c ∈ tld, isAlphaChar c = true) ∧
  pyLower tld ≠ "at".toList ∧ pyLower tld ≠ "dot".toList

def obfOK (o : Obf) : Prop :=
  allWSb o.ws0 = true ∧ locOK o.locpart ∧ markOK "at".toList o.atm ∧
  o.mids ≠ [] ∧ (∀ q ∈ o.mids, labelOK q.1 ∧ markOK "dot".toList q.2) ∧
  tldOK o.tld ∧ allWSb o.ws3 = true

/-- Does the pattern `pt` replace markers of this shape for the bare
word `w`? -/
def firesOn (pt : Pat) (w : Str) : Mark → Bool
  | .lit => false
  | .brk _ _ _ => !pt.spaced && pt.word == '[' :: w ++ [']']
  | .par _ _ _ => !pt.spaced && pt.word == '(' :: w ++ [')']
  | .spc _ _ _ => pt.spaced && pt.word == w

/-- The marker state after one substitution pass. -/
def stepMark (pt : Pat) (w : Str) (m : Mark) : Mark :=
  if firesOn pt w m then .lit else m

def stepObf (pt : Pat) (o : Obf) : Obf :=
  ⟨o.ws0, o.locpart, stepMark pt "at".toList o.atm,
   o.mids.map fun q => (q.1, stepMark pt "dot".toList q.2), o.tld, o.ws3⟩

/-- `litMatch` disagrees with the input strictly inside `t` (hence on
any extension of `t`). -/
def litFailsIn : Str → Str → Bool
  | [], _ => false
  | _ :: _, [] => false
  | l :: ls, c :: cs => if lowerChar c = l then litFailsIn ls cs else true

/-- At every suffix position of `t`, `litMatch` disagrees strictly
inside the remaining characters of `t`. -/
def brSafeChunk (w : Str) : Str → Bool
  | [] => true
  | c :: cs => litFailsIn w (c :: cs) && brSafeChunk w cs

/-- No match of `pt` can begin inside a whitespace run followed by
`rest`: either the literal fails at the first non-whitespace position,
or the pattern is spaced and lacks its mandatory trailing
whitespace. -/
def wsSkipOK (pt : Pat) (rest : Str) : Bool :=
  match litMatch pt.word (rest.dropWhile isWS) with
  | none => true
  | some r => pt.spaced && (r.takeWhile isWS).isEmpty

/-- The continuation after a text chunk never starts with a letter (so
a bare marker word can never continue across the boundary). -/
def headSafeB : Str → Bool
  | [] => true
  | h :: _ => !isAlphaChar h

/-- The lower-cased literal text of a (non-literal) marker of bare word
`w`, as seen by the scanner after case folding. -/
def markLower (w : Str) : Mark → Str
  | .lit => []
  | .brk _ _ _ => '[' :: w ++ [']']
  | .par _ _ _ => '(' :: w ++ [')']
  | .spc _ _ _ => w

/-- One representative marker per shape (`firesOn` and `markLower`
depend only on the shape). -/
def markShapes : List Mark :=
  [Mark.lit, Mark.brk [] [] [], Mark.par [] [] [], Mark.spc [] [] []]

/-- The representative of a marker's shape. -/
def shapeOf : Mark → Mark
  | .lit => .lit
  | .brk _ _ _ => .brk [] [] []
  | .par _ _ _ => .par [] [] []
  | .spc _ _ _ => .spc [] [] []

/-- The decidable side conditions a substitution pattern must satisfy
for the pass-by-pass walk over a rendering: its word is non-empty and
whitespace-free; a spaced word is alphabetic and is one of the bare
marker words; a bracketed word opens with a bracket; firing on an
at-marker (resp. dot-marker) writes `@` (resp. `.`); and every
non-fired marker literal both fails the scan and is bracket-safe. -/
def passFacts (p : Pat) : Prop :=
  p.word ≠ [] ∧ noWSb p.word = true ∧
  (p.spaced = true → ∀ ch ∈ p.word, isAlphaChar ch = true) ∧
  (p.spaced = true → (p.word = "at".toList ∨ p.word = "dot".toList)) ∧
  (p.spaced = false → (p.word.head? = some '[' ∨ p.word.head? = some '(')) ∧
  (∀ m ∈ markShapes, firesOn p "at".toList m = true → p.repl = '@') ∧
  (∀ m ∈ markShapes, firesOn p "dot".toList m = true → p.repl = '.') ∧
  (∀ w ∈ ["at".toList, "dot".toList], ∀ m ∈ markShapes, m ≠ Mark.lit →
    firesOn p w m = false →
      litFailsIn p.word (markLower w m) = true ∧
      (p.spaced = false → brSafeChunk p.word (markLower w m) = true) ∧
      noWSb (markLower w m) = true ∧ markLower w m ≠ [])

/-- A rendering of `j@x.at.co` with a `(at)` marker and spaced `dot`
markers; its middle label spells the bare word `at`. -/
def obfCx : Obf :=
  ⟨[], "j".toList, Mark.par [' '] "(at)".toList [' '],
   [("x".toList, Mark.spc [' '] "dot".toList [' ']),
    ("at".toList, Mark.spc [' '] "dot".toList [' '])],
   "co".toList, []⟩

/-- A mixed-case rendering of `John9@x.CoM` with surrounding
whitespace, a bracketed at-marker and a spaced dot-marker. -/
def obfWit : Obf :=
  ⟨[' '], "John9".toList, Mark.brk [' '] "[AT]".toList [],
   [("x".toList, Mark.spc [' '] "DoT".toList [' '])],
   "CoM".toList, [' ']⟩

-- C6_THEOREM_HELPERS_POINT

/-! ## Theorems -/

theorem fallbackBlocks_length (soup : Node) : (fallbackBlocks soup).length = 1 := by
  unfold fallbackBlocks
  cases (select soup (Sel.tag "body".toList)).head? <;> rfl

theorem selLoop_eq_find (soup : Node) : ∀ sels : List Sel,
    selLoop soup sels =
      match sels.find? (fun sel => 5 ≤ (select soup sel).length && (select soup sel).length ≤ 400) with
      | some sel => select soup sel
      | none => fallbackBlocks soup := by
  intro sels
  induction sels with
  | nil => rfl
  | cons sel rest ih =>
    unfold selLoop
    rw [List.find?_cons]
    cases hc : (decide (5 ≤ (select soup sel).length) && decide ((select soup sel).length ≤ 400)) with
    | true => simp [hc]
    | false => simp [hc, ih]

theorem selLoop_length (soup : Node) : ∀ sels : List Sel, 1 ≤ (selLoop soup sels).length := by
  intro sels
  induction sels with
  | nil => simp [selLoop, fallbackBlocks_length]
  | cons sel rest ih =>
    unfold selLoop
    cases hc : (decide (5 ≤ (select soup sel).length) && decide ((select soup sel).length ≤ 400)) with
    | true =>
      have h5 := of_decide_eq_true ((Bool.and_eq_true _ _).mp hc).1
      simp only [hc, if_true]
      omega
    | false => simp [hc, ih]

/-- Claim C9: block segmentation follows the priority cascade — at least
five table rows win outright; otherwise the first selector of the fixed
ordered list yielding between 5 and 400 elements; otherwise the single
fallback block (the body, or the whole document without one) — and the
result is never empty. -/
theorem claim_C9 : ∀ soup : Node,
    (5 ≤ (select soup Sel.tableTr).length →
       find_candidate_blocks soup = select soup Sel.tableTr) ∧
    ((select soup Sel.tableTr).length < 5 →
       find_candidate_blocks soup =
         match SELECTORS.find?
             (fun sel => 5 ≤ (select soup sel).length && (select soup sel).length ≤ 400) with
         | some sel => select soup sel
         | none => fallbackBlocks soup) ∧
    1 ≤ (find_candidate_blocks soup).length := by
  intro soup
  refine ⟨?_, ?_, ?_⟩
  · intro h
    unfold find_candidate_blocks
    rw [if_pos h]
  · intro h
    unfold find_candidate_blocks
    rw [if_neg (by omega)]
    exact selLoop_eq_find soup SELECTORS
  · unfold find_candidate_blocks
    by_cases h : 5 ≤ (select soup Sel.tableTr).length
    · rw [if_pos h]; omega
    · rw [if_neg h]; exact selLoop_length soup SELECTORS

/-- Witness for claim C9: a six-row table is segmented into its rows; a
page with no rows and no selector hits falls back to the single body
block. -/
theorem claim_C9_witness :
    (5 ≤ (select soupTable Sel.tableTr).length ∧
      find_candidate_blocks soupTable = select soupTable Sel.tableTr) ∧
    ((select soupPlain Sel.tableTr).length < 5 ∧
      find_candidate_blocks soupPlain = fallbackBlocks soupPlain) :=
  ⟨⟨by decide, (claim_C9 soupTable).1 (by decide)⟩,
   ⟨by decide, ((claim_C9 soupPlain).2.1 (by decide)).trans (by rfl)⟩⟩

/-- Claim C3: for a sport name and any of its known gendered shorthand
aliases, the sport token sets derived by the pipeline (canonicalization
via `resolve_sport` with fallback to the raw input, then
`sport_tokens`) overlap on at least one shared token. -/
theorem claim_C3 : ∀ p ∈ sportAliasPairs,
    ((derived_sport_tokens p.1).any fun tok => (derived_sport_tokens p.2).contains tok) = true := by
  decide

/-- Witness for claim C3 at the pair from the design document:
`"WBB"` and `"Women's Basketball"`. -/
theorem claim_C3_witness :
    ((derived_sport_tokens "WBB".toList).any fun tok =>
      (derived_sport_tokens "Women's Basketball".toList).contains tok) = true :=
  claim_C3 ("WBB".toList, "Women's Basketball".toList) (by decide)

/-- Claim C5: role classification is exclusion-dominant — any text
matching an excluded phrase or a whole-word GA/SA abbreviation pattern
is rejected by `is_target_block`, whatever else it contains. -/
theorem claim_C5 : ∀ text : Str,
    ((EXCLUDE_ROLE_KEYWORDS.any fun k => containsSub k text) = true ∨
     (EXCLUDE_ABBREV_PATTERNS.any fun p => hasAbbrev p.1 p.2 text) = true) →
    is_target_block text = false := by
  intro text h
  have hex : is_excluded_block text = true := by
    rcases h with h | h <;> simp [is_excluded_block, h]
  simp [is_target_block, hex]

/-- Witness for claim C5: a block holding both the excluded phrase
`"graduate assistant"` and the included phrase `"assistant coach"` is
rejected. -/
theorem claim_C5_witness :
    containsSub "graduate assistant".toList
      "graduate assistant and assistant coach".toList = true ∧
    containsSub "assistant coach".toList
      "graduate assistant and assistant coach".toList = true ∧
    is_target_block "graduate assistant and assistant coach".toList = false :=
  ⟨by decide, by decide, claim_C5 _ (Or.inl (by decide))⟩

/-- Claim C7: under a swimming target sport, a block mentioning diving
with no form of swim fails `sport_match` regardless of any other
tokens; the document's two example blocks behave as stated. -/
theorem claim_C7 :
    (∀ sport text : Str, isSwimTargetSport sport = true →
        hasDivingMention text = true → hasSwimMention text = false →
        sport_match text sport = false) ∧
    sport_match (norm (deobfuscate "John Smith, Diving Coach".toList))
      "Women's Swimming & Diving".toList = false ∧
    sport_match (norm (deobfuscate "Jane Doe, Swimming & Diving Coach".toList))
      "Women's Swimming & Diving".toList = true := by
  refine ⟨?_, by decide, by decide⟩
  intro sport text hs hd hsw
  simp [sport_match, is_diving_only_for_swim_target, hs, hd, hsw]

/-- Witness for claim C7's universal part: a diving-only block under a
swimming target. -/
theorem claim_C7_witness :
    sport_match "diving coach".toList "Men's Swimming & Diving".toList = false :=
  claim_C7.1 _ _ (by decide) (by decide) (by decide)

/-- Claim C10: any text with a standalone `ga` or `sa` word — whatever
the context, for instance the state abbreviation in `"atlanta, ga"` —
is rejected by `is_target_block`, and a head-coach block with such text
contributes no emails. -/
theorem claim_C10 :
    (∀ text : Str,
        (hasAbbrev "ga".toList true text = true ∨ hasAbbrev "sa".toList true text = true) →
        is_target_block text = false) ∧
    extract_target_emails_from_page pageC10 "http://u.edu/mbb".toList
      "Men's Basketball".toList false = [] := by
  constructor
  · intro text h
    have hex : is_excluded_block text = true := by
      rcases h with h | h <;> simp at h <;>
        simp [is_excluded_block, EXCLUDE_ABBREV_PATTERNS, h]
    simp [is_target_block, hex]
  · rfl

/-- Witness for claim C10: the state abbreviation in
`"john smith head coach atlanta, ga"` suppresses a head-coach block. -/
theorem claim_C10_witness :
    containsSub "head coach".toList "john smith head coach atlanta, ga".toList = true ∧
    is_target_block "john smith head coach atlanta, ga".toList = false :=
  ⟨by decide, claim_C10.1 _ (Or.inl (by decide))⟩

/-- Counterexample for claim C4: the address part taken from
`mailto:john@x.com.` keeps its trailing period — only the query suffix
and surrounding whitespace are removed, trailing punctuation is not —
so the extracted string both ends in punctuation and is what the block
extraction emits. -/
theorem claim_C4_counterexample :
    mailtoPayload "mailto:john@x.com.".toList = "john@x.com.".toList ∧
    emails_in_block blockC4 = ["john@x.com.".toList] ∧
    "john@x.com.".toList.getLast? = some '.' :=
  ⟨rfl, rfl, rfl⟩

theorem afterFirst_mailto (r : Str) :
    afterFirst "mailto:".toList ("mailto:".toList ++ r) = r := by
  simp [afterFirst, List.isPrefixOf]

theorem pyStrip_mem {c : Char} {s : Str} (h : c ∈ pyStrip s) : c ∈ s := by
  unfold pyStrip at h
  rw [List.mem_reverse] at h
  have h1 : c ∈ (s.dropWhile isWS).reverse := (List.dropWhile_sublist _).mem h
  rw [List.mem_reverse] at h1
  exact (List.dropWhile_sublist _).mem h1

/-- Claim C4, amended: the email taken from an anchor whose link target
is `"mailto:" ++ r` is exactly the part of `r` before any `?`, with
surrounding whitespace trimmed; it never holds a query-string `?`
character, and it is added only when non-empty.  (Trailing punctuation
inside the address part itself is preserved, as the counterexample
shows.) -/
theorem claim_C4_amended : ∀ r : Str,
    mailtoPayload ("mailto:".toList ++ r) = pyStrip (r.takeWhile fun c => c ≠ '?') ∧
    (∀ c ∈ mailtoPayload ("mailto:".toList ++ r), c ≠ '?') ∧
    ((mailtoPayload ("mailto:".toList ++ r)).isEmpty = true →
        mailtoCollect [] [anchorOf r] = []) ∧
    ((mailtoPayload ("mailto:".toList ++ r)).isEmpty = false →
        mailtoCollect [] [anchorOf r] = [mailtoPayload ("mailto:".toList ++ r)]) := by
  intro r
  have heq : mailtoPayload ("mailto:".toList ++ r) = pyStrip (r.takeWhile fun c => c ≠ '?') := by
    unfold mailtoPayload
    rw [afterFirst_mailto]
  refine ⟨heq, ?_, ?_, ?_⟩
  · intro c hc
    rw [heq] at hc
    have h1 : c ∈ r.takeWhile (fun c => (c ≠ '?' : Bool)) := pyStrip_mem hc
    simpa using List.mem_takeWhile_imp h1
  · intro he
    rw [List.isEmpty_iff] at he
    have he' : mailtoPayload ('m' :: 'a' :: 'i' :: 'l' :: 't' :: 'o' :: ':' :: r) = [] := he
    simp [mailtoCollect, anchorOf, attrGet, lookupA, he']
  · intro he
    have hne : mailtoPayload ("mailto:".toList ++ r) ≠ [] := by
      intro hh
      rw [hh] at he
      simp at he
    have hne' : mailtoPayload ('m' :: 'a' :: 'i' :: 'l' :: 't' :: 'o' :: ':' :: r) ≠ [] := hne
    simp [mailtoCollect, anchorOf, attrGet, lookupA, hne', insertS]

/-- Witness for claim C4 amended: query suffixes are cut, whitespace
payloads are dropped, characters of the payload are never `?`, and a
non-empty payload is added. -/
theorem claim_C4_amended_witness :
    mailtoPayload ("mailto:".toList ++ "john@x.com?subject=hi".toList) = "john@x.com".toList ∧
    ('j' ≠ '?') ∧
    mailtoCollect [] [anchorOf "  ".toList] = [] ∧
    mailtoCollect [] [anchorOf "john@x.com?x=1".toList] = ["john@x.com".toList] :=
  ⟨((claim_C4_amended "john@x.com?subject=hi".toList).1).trans (by rfl),
   (claim_C4_amended "john@x.com?subject=hi".toList).2.1 'j' (by decide),
   (claim_C4_amended "  ".toList).2.2.1 (by rfl),
   ((claim_C4_amended "john@x.com?x=1".toList).2.2.2 (by rfl)).trans (by rfl)⟩

/-- Counterexample for claim C2: one target's page holds the same
address in two letter cases, and the result set keeps both — the
deduplication in the code is exact (case-sensitive), not
case-insensitive — so the emitted field lists two entries where the
claim promises one. -/
theorem claim_C2_counterexample :
    process_one_target envC2 tC2 = .ok ["A@b.co".toList, "a@b.co".toList] ∧
    pyLower "A@b.co".toList = pyLower "a@b.co".toList ∧
    "A@b.co".toList ≠ "a@b.co".toList ∧
    join_emails ["A@b.co".toList, "a@b.co".toList] = "A@b.co, a@b.co".toList :=
  ⟨by rfl, by rfl, by decide, by rfl⟩

theorem lexLe_total : ∀ a b : Str, lexLe a b = true ∨ lexLe b a = true := by
  intro a
  induction a with
  | nil => intro b; left; rfl
  | cons x xs ih =>
    intro b
    cases b with
    | nil => right; rfl
    | cons y ys =>
      rcases Nat.lt_trichotomy x.toNat y.toNat with h | h | h
      · left; simp [lexLe, h]
      · rcases ih ys with h2 | h2
        · left; simp [lexLe, h, h2]
        · right; simp [lexLe, h.symm, h2]
      · right; simp [lexLe, h]

theorem lexLe_trans : ∀ a b c : Str,
    lexLe a b = true → lexLe b c = true → lexLe a c = true := by
  intro a
  induction a with
  | nil => intro b c _ _; rfl
  | cons x xs ih =>
    intro b c hab hbc
    cases b with
    | nil => simp [lexLe] at hab
    | cons y ys =>
      cases c with
      | nil => simp [lexLe] at hbc
      | cons z zs =>
        unfold lexLe at hab hbc ⊢
        split at hab
        next hxy =>
          split at hbc
          next hyz => simp [Nat.lt_trans hxy hyz]
          next hyz =>
            split at hbc
            next hzy => simp at hbc
            next hzy =>
              have hxz : x.toNat < z.toNat := by omega
              simp [hxz]
        next hxy =>
          split at hab
          next hyx => simp at hab
          next hyx =>
            split at hbc
            next hyz =>
              have hxz : x.toNat < z.toNat := by omega
              simp [hxz]
            next hyz =>
              split at hbc
              next hzy => simp at hbc
              next hzy =>
                have h1 : ¬ x.toNat < z.toNat := by omega
                have h2 : ¬ z.toNat < x.toNat := by omega
                simp only [h1, h2, if_false]
                exact ih ys zs hab hbc

/-- Claim C2, amended: within one target's result set, emails are
deduplicated exactly (case-sensitively) — adding an exactly-present
address changes nothing, while two addresses differing only in letter
case yield two entries, each with its original case preserved — and the
emitted field is the comma-and-space join of the set sorted
case-insensitively (by lower-cased key). -/
theorem claim_C2_amended :
    (∀ (l : List Str) (e : Str), l.contains e = true → insertS l e = l) ∧
    (∀ (l : List Str) (e : Str), l.contains e = false → insertS l e = l ++ [e]) ∧
    (∀ (l : List Str) (e e' : Str), pyLower e = pyLower e' → e ≠ e' →
        l.contains e = false → l.contains e' = false →
        (insertS (insertS l e) e').length = l.length + 2) ∧
    (∀ es : List Str,
        join_emails es = joinSepStr ", ".toList (List.insertionSort keyLowerLe es) ∧
        List.Sorted keyLowerLe (List.insertionSort keyLowerLe es) ∧
        (List.insertionSort keyLowerLe es).Perm es) := by
  have htrans : Transitive keyLowerLe := fun a b c hab hbc =>
    lexLe_trans (pyLower a) (pyLower b) (pyLower c) hab hbc
  refine ⟨?_, ?_, ?_, ?_⟩
  · intro l e h
    simp at h
    simp [insertS, h]
  · intro l e h
    simp at h
    simp [insertS, h]
  · intro l e e' _ hne hce hce'
    have hme : e ∉ l := by simpa using hce
    have hm : e' ∉ l := by simpa using hce'
    have h2 : insertS l e = l ++ [e] := by simp [insertS, hme]
    have hc3 : e' ∉ l ++ [e] := by simp [List.mem_append, hm, Ne.symm hne]
    rw [h2]
    simp [insertS, hc3]
  · intro es
    refine ⟨rfl, ?_, List.perm_insertionSort keyLowerLe es⟩
    have htot : IsTotal Str keyLowerLe :=
      ⟨fun a b => lexLe_total (pyLower a) (pyLower b)⟩
    have htr : IsTrans Str keyLowerLe := ⟨fun a b c hab hbc => htrans hab hbc⟩
    exact @List.sorted_insertionSort Str keyLowerLe _ htot htr es

/-- Witness for claim C2 amended: exact duplicates collapse, a
case-variant is a second entry, and the join of a concrete set is
sorted by lower-cased key. -/
theorem claim_C2_amended_witness :
    insertS ["a@b.co".toList] "a@b.co".toList = ["a@b.co".toList] ∧
    insertS ["a@b.co".toList] "A@b.co".toList = ["a@b.co".toList, "A@b.co".toList] ∧
    (insertS (insertS [] "A@b.co".toList) "a@b.co".toList).length = List.length ([] : List Str) + 2 ∧
    join_emails ["b@x.co".toList, "A@x.co".toList] =
      joinSepStr ", ".toList (List.insertionSort keyLowerLe ["b@x.co".toList, "A@x.co".toList]) :=
  ⟨claim_C2_amended.1 ["a@b.co".toList] "a@b.co".toList (by decide),
   claim_C2_amended.2.1 ["a@b.co".toList] "A@b.co".toList (by decide),
   claim_C2_amended.2.2.1 [] "A@b.co".toList "a@b.co".toList (by decide) (by decide)
     (by decide) (by decide),
   (claim_C2_amended.2.2.2 ["b@x.co".toList, "A@x.co".toList]).1⟩

/-- Counterexample for claim C1: a batch of two valid targets in which
the first target's primary page fetch raises.  The run-level handler
catches the exception, so the whole batch aborts with an error and no
result rows at all — no per-target error-marker row exists — even
though the second target alone processes successfully. -/
theorem claim_C1_counterexample :
    runBatch envC1 [t1C1, t2C1] = .error () ∧
    process_one_target envC1 t2C1 = .ok ["j@x.co".toList] :=
  ⟨by rfl, by rfl⟩

/-- Claim C1, amended: when every target's processing succeeds (no
unrecoverable per-target error), the run completes and emits exactly
one result row per target, in input order; but a per-target
unrecoverable error (such as a failed primary page fetch) aborts the
entire batch with a single run-level error and no result rows — there
is no per-target error-marker row. -/
theorem claim_C1_amended : ∀ (env : Env) (ts : List Target),
    (∀ t ∈ ts, isOkE (process_one_target env t) = true) →
    runBatch env ts =
      .ok (ts.map fun t => ⟨t.university, join_emails (okD (process_one_target env t))⟩) := by
  intro env ts h
  induction ts with
  | nil => rfl
  | cons t ts ih =>
    have ht := h t (by simp)
    have hts : ∀ x ∈ ts, isOkE (process_one_target env x) = true :=
      fun x hx => h x (by simp [hx])
    cases hp : process_one_target env t with
    | error e => rw [hp] at ht; simp [isOkE] at ht
    | ok es => simp [runBatch, hp, ih hts, okD]

/-- Witness for claim C1 amended: a single-target batch whose fetches
succeed emits exactly one row, in order. -/
theorem claim_C1_amended_witness :
    runBatch envC1 [t2C1] = .ok [⟨"Beta U".toList, "j@x.co".toList⟩] :=
  (claim_C1_amended envC1 [t2C1] (by decide)).trans (by rfl)

/-- Claim C8: the per-target pipeline is exactly the ordered
four-stage machine of the design — sport-page direct scan, sport-page
bio fallback, then (only when a staff directory is present) directory
direct scan and directory bio fallback — terminal at the first
non-empty email set, with the sport filter off in stages 1–2 and
mandatory in stages 3–4. -/
theorem claim_C8 : ∀ (env : Env) (t : Target),
    process_one_target env t = spec_state_machine env t := by
  intro env t
  unfold process_one_target spec_state_machine spec_stages
  cases hf : env.fetch t.url with
  | none => rfl
  | some soup =>
    simp only [List.cons_append, List.nil_append]
    cases hE1 : unionS [] (extract_target_emails_from_page soup t.url t.sport false) with
    | cons a l => simp [runStages, hE1]
    | nil =>
      cases hE2 : unionS [] (extract_from_bios env t.url soup t.sport false) with
      | cons a l => simp [runStages, hE1, hE2]
      | nil =>
        cases hSd : (pyStrip t.staff_directory_url).isEmpty with
        | true => simp [runStages, hE1, hE2, hSd]
        | false =>
          cases hFd : env.fetch (pyStrip t.staff_directory_url) with
          | none => simp [runStages, hE1, hE2, hSd, hFd]
          | some sd =>
            cases hE3 : unionS []
                (extract_target_emails_from_page sd (pyStrip t.staff_directory_url) t.sport true) with
            | cons a l => simp [runStages, hE1, hE2, hSd, hFd, hE3]
            | nil =>
              cases hE4 : unionS []
                  (extract_from_bios env (pyStrip t.staff_directory_url) sd t.sport true) with
              | cons a l => simp [runStages, hE1, hE2, hSd, hFd, hE3, hE4]
              | nil => simp [runStages, hE1, hE2, hSd, hFd, hE3, hE4]

/-! Character-level facts used by the de-obfuscation development. -/

theorem char_eq_iff_toNat (c d : Char) : c = d ↔ c.toNat = d.toNat := by
  constructor
  · intro h; rw [h]
  · intro h
    exact Char.eq_of_val_eq (UInt32.toNat.inj h)

theorem char_ofNat_toNat {n : Nat} (h : n < 55296) : (Char.ofNat n).toNat = n := by
  rw [Char.ofNat, dif_pos (Or.inl h)]
  rfl

theorem lowerChar_toNat (c : Char) :
    (lowerChar c).toNat = if 65 ≤ c.toNat ∧ c.toNat ≤ 90 then c.toNat + 32 else c.toNat := by
  unfold lowerChar
  by_cases h : 65 ≤ c.toNat ∧ c.toNat ≤ 90
  · rw [if_pos, if_pos h]
    · exact char_ofNat_toNat (by omega)
    · rw [Bool.and_eq_true]
      exact ⟨@decide_eq_true ('A' ≤ c) _ h.1, @decide_eq_true (c ≤ 'Z') _ h.2⟩
  · rw [if_neg, if_neg h]
    rw [Bool.and_eq_true]
    intro hc
    exact h ⟨of_decide_eq_true hc.1, of_decide_eq_true hc.2⟩

theorem isWS_toNat (c : Char) : isWS c = true ↔
    (c.toNat = 32 ∨ c.toNat = 9 ∨ c.toNat = 10 ∨ c.toNat = 13 ∨ c.toNat = 11 ∨ c.toNat = 12) := by
  unfold isWS
  simp only [Bool.or_eq_true, decide_eq_true_eq]
  rw [char_eq_iff_toNat c ' ', char_eq_iff_toNat c '\t', char_eq_iff_toNat c '\n',
    char_eq_iff_toNat c '\r', char_eq_iff_toNat c (Char.ofNat 11), char_eq_iff_toNat c (Char.ofNat 12)]
  simp only [show (' ' : Char).toNat = 32 from rfl, show ('\t' : Char).toNat = 9 from rfl,
    show ('\n' : Char).toNat = 10 from rfl, show ('\r' : Char).toNat = 13 from rfl,
    show (Char.ofNat 11).toNat = 11 from rfl, show (Char.ofNat 12).toNat = 12 from rfl]
  tauto

theorem isAlphaChar_toNat (c : Char) : isAlphaChar c = true ↔
    (65 ≤ c.toNat ∧ c.toNat ≤ 90) ∨ (97 ≤ c.toNat ∧ c.toNat ≤ 122) := by
  unfold isAlphaChar
  simp only [Bool.or_eq_true, Bool.and_eq_true, decide_eq_true_eq]
  constructor
  · rintro (⟨h1, h2⟩ | ⟨h1, h2⟩)
    · exact Or.inl ⟨h1, h2⟩
    · exact Or.inr ⟨h1, h2⟩
  · rintro (⟨h1, h2⟩ | ⟨h1, h2⟩)
    · exact Or.inl ⟨h1, h2⟩
    · exact Or.inr ⟨h1, h2⟩

theorem isLocalChar_toNat (c : Char) : isLocalChar c = true ↔
    ((65 ≤ c.toNat ∧ c.toNat ≤ 90) ∨ (97 ≤ c.toNat ∧ c.toNat ≤ 122) ∨
     (48 ≤ c.toNat ∧ c.toNat ≤ 57) ∨ c.toNat = 46 ∨ c.toNat = 95 ∨
     c.toNat = 37 ∨ c.toNat = 43 ∨ c.toNat = 45) := by
  unfold isLocalChar
  simp only [Bool.or_eq_true, Bool.and_eq_true, decide_eq_true_eq]
  rw [char_eq_iff_toNat c '.', char_eq_iff_toNat c '_', char_eq_iff_toNat c '%',
    char_eq_iff_toNat c '+', char_eq_iff_toNat c '-']
  simp only [show ('.' : Char).toNat = 46 from rfl, show ('_' : Char).toNat = 95 from rfl,
    show ('%' : Char).toNat = 37 from rfl, show ('+' : Char).toNat = 43 from rfl,
    show ('-' : Char).toNat = 45 from rfl,
    show (('A' ≤ c) ↔ 65 ≤ c.toNat) from Iff.rfl, show ((c ≤ 'Z') ↔ c.toNat ≤ 90) from Iff.rfl,
    show (('a' ≤ c) ↔ 97 ≤ c.toNat) from Iff.rfl, show ((c ≤ 'z') ↔ c.toNat ≤ 122) from Iff.rfl,
    show (('0' ≤ c) ↔ 48 ≤ c.toNat) from Iff.rfl, show ((c ≤ '9') ↔ c.toNat ≤ 57) from Iff.rfl]
  tauto

theorem isLabChar_toNat (c : Char) : isLabChar c = true ↔
    ((65 ≤ c.toNat ∧ c.toNat ≤ 90) ∨ (97 ≤ c.toNat ∧ c.toNat ≤ 122) ∨
     (48 ≤ c.toNat ∧ c.toNat ≤ 57) ∨ c.toNat = 45) := by
  unfold isLabChar
  simp only [Bool.or_eq_true, Bool.and_eq_true, decide_eq_true_eq, isAlphaChar_toNat]
  rw [char_eq_iff_toNat c '-']
  simp only [show ('-' : Char).toNat = 45 from rfl]
  tauto

theorem isTextChar_toNat (c : Char) : isTextChar c = true ↔
    ((65 ≤ c.toNat ∧ c.toNat ≤ 90) ∨ (97 ≤ c.toNat ∧ c.toNat ≤ 122) ∨
     (48 ≤ c.toNat ∧ c.toNat ≤ 57) ∨ c.toNat = 46 ∨ c.toNat = 95 ∨
     c.toNat = 37 ∨ c.toNat = 43 ∨ c.toNat = 45 ∨ c.toNat = 64) := by
  unfold isTextChar
  simp only [Bool.or_eq_true, decide_eq_true_eq, isLocalChar_toNat]
  rw [char_eq_iff_toNat c '@']
  simp only [show ('@' : Char).toNat = 64 from rfl]
  tauto

theorem isWS_lowerChar (c : Char) : isWS (lowerChar c) = isWS c := by
  by_cases h : 65 ≤ c.toNat ∧ c.toNat ≤ 90
  · have hl := lowerChar_toNat c
    rw [if_pos h] at hl
    have h1 : isWS c = false := by
      cases hws : isWS c with
      | false => rfl
      | true => have := (isWS_toNat c).mp hws; omega
    have h2 : isWS (lowerChar c) = false := by
      cases hws : isWS (lowerChar c) with
      | false => rfl
      | true => have := (isWS_toNat _).mp hws; omega
    rw [h1, h2]
  · have hl := lowerChar_toNat c
    rw [if_neg h] at hl
    rw [(char_eq_iff_toNat _ _).mpr hl]

theorem isAlphaChar_lowerChar (c : Char) : isAlphaChar (lowerChar c) = isAlphaChar c := by
  by_cases h : 65 ≤ c.toNat ∧ c.toNat ≤ 90
  · have hl := lowerChar_toNat c
    rw [if_pos h] at hl
    have h1 : isAlphaChar c = true := (isAlphaChar_toNat c).mpr (Or.inl h)
    have h2 : isAlphaChar (lowerChar c) = true :=
      (isAlphaChar_toNat _).mpr (Or.inr (by omega))
    rw [h1, h2]
  · have hl := lowerChar_toNat c
    rw [if_neg h] at hl
    rw [(char_eq_iff_toNat _ _).mpr hl]

theorem isTextChar_not_ws {c : Char} (h : isTextChar c = true) : isWS c = false := by
  have ht := (isTextChar_toNat c).mp h
  cases hws : isWS c with
  | false => rfl
  | true => have := (isWS_toNat c).mp hws; omega

theorem isTextChar_lower_ne_brackets {c : Char} (h : isTextChar c = true) :
    lowerChar c ≠ '[' ∧ lowerChar c ≠ '(' := by
  have ht := (isTextChar_toNat c).mp h
  have hl := lowerChar_toNat c
  constructor <;> intro heq <;> rw [(char_eq_iff_toNat _ _).mp heq] at hl
  · have : ('[' : Char).toNat = 91 := rfl
    rw [this] at hl
    split at hl <;> omega
  · have : ('(' : Char).toNat = 40 := rfl
    rw [this] at hl
    split at hl <;> omega

theorem isLabChar_isLocal {c : Char} (h : isLabChar c = true) : isLocalChar c = true := by
  have := (isLabChar_toNat c).mp h
  exact (isLocalChar_toNat c).mpr (by tauto)

theorem isAlphaChar_isLocal {c : Char} (h : isAlphaChar c = true) : isLocalChar c = true := by
  have := (isAlphaChar_toNat c).mp h
  exact (isLocalChar_toNat c).mpr (by tauto)

theorem isLocalChar_isText {c : Char} (h : isLocalChar c = true) : isTextChar c = true := by
  have := (isLocalChar_toNat c).mp h
  exact (isTextChar_toNat c).mpr (by tauto)

theorem isWS_not_alpha {c : Char} (h : isWS c = true) : isAlphaChar c = false := by
  have := (isWS_toNat c).mp h
  cases ha : isAlphaChar c with
  | false => rfl
  | true => have := (isAlphaChar_toNat c).mp ha; omega

theorem lowerChar_idem (c : Char) : lowerChar (lowerChar c) = lowerChar c := by
  apply (char_eq_iff_toNat _ _).mpr
  have h1 := lowerChar_toNat c
  have h2 := lowerChar_toNat (lowerChar c)
  split at h1 <;> split at h2 <;> omega

/-! Scanner-level facts about `litMatch`, `tryPat`, `goPat`. -/

theorem litMatch_length : ∀ {w s r : Str}, litMatch w s = some r → s.length = w.length + r.length := by
  intro w
  induction w with
  | nil => intro s r h; simp [litMatch] at h; simp [h]
  | cons l ls ih =>
    intro s r h
    cases s with
    | nil => simp [litMatch] at h
    | cons c cs =>
      unfold litMatch at h
      split at h
      · have := ih h
        simp [List.length_cons, this]
        omega
      · exact absurd h (by simp)

theorem litMatch_of_lower : ∀ {c : Str} {w : Str} (r : Str), pyLower c = w → litMatch w (c ++ r) = some r := by
  intro c
  induction c with
  | nil => intro w r h; rw [← h]; rfl
  | cons x xs ih =>
    intro w r h
    rw [← h]
    show litMatch (lowerChar x :: pyLower xs) (x :: (xs ++ r)) = some r
    unfold litMatch
    rw [if_pos rfl]
    exact ih r rfl

theorem litFailsIn_spec : ∀ {w t : Str}, litFailsIn w t = true → ∀ rest, litMatch w (t ++ rest) = none := by
  intro w
  induction w with
  | nil => intro t h; simp [litFailsIn] at h
  | cons l ls ih =>
    intro t h rest
    cases t with
    | nil => simp [litFailsIn] at h
    | cons c cs =>
      unfold litFailsIn at h
      show litMatch (l :: ls) (c :: (cs ++ rest)) = none
      unfold litMatch
      split at h
      · rw [if_pos (by assumption)]
        exact ih h rest
      · rw [if_neg (by assumption)]

theorem litFailsIn_lower : ∀ (w t : Str), litFailsIn w (pyLower t) = litFailsIn w t := by
  intro w
  induction w with
  | nil => intro t; rfl
  | cons l ls ih =>
    intro t
    cases t with
    | nil => rfl
    | cons c cs =>
      show litFailsIn (l :: ls) (lowerChar c :: pyLower cs) = litFailsIn (l :: ls) (c :: cs)
      unfold litFailsIn
      rw [lowerChar_idem]
      split
      · exact ih cs
      · rfl

theorem brSafe_of_head : ∀ {l : Char} {ls : Str} (t : Str),
    (∀ c ∈ t, lowerChar c ≠ l) → brSafeChunk (l :: ls) t = true := by
  intro l ls t
  induction t with
  | nil => intro _; rfl
  | cons c cs ih =>
    intro h
    unfold brSafeChunk
    rw [Bool.and_eq_true]
    constructor
    · unfold litFailsIn
      rw [if_neg (h c (by simp))]
    · exact ih (fun x hx => h x (by simp [hx]))

theorem brSafeChunk_lower : ∀ (w t : Str), brSafeChunk w (pyLower t) = brSafeChunk w t := by
  intro w t
  induction t with
  | nil => rfl
  | cons c cs ih =>
    show brSafeChunk w (lowerChar c :: pyLower cs) = brSafeChunk w (c :: cs)
    unfold brSafeChunk
    rw [ih]
    have : litFailsIn w (lowerChar c :: pyLower cs) = litFailsIn w (c :: cs) := by
      have h1 := litFailsIn_lower w (c :: cs)
      simpa using h1
    rw [this]

theorem allWSb_cons {c : Char} {cs : Str} :
    allWSb (c :: cs) = true ↔ isWS c = true ∧ allWSb cs = true := by
  unfold allWSb
  rw [List.all_cons, Bool.and_eq_true]

theorem noWSb_cons {c : Char} {cs : Str} :
    noWSb (c :: cs) = true ↔ isWS c = false ∧ noWSb cs = true := by
  unfold noWSb
  rw [List.all_cons, Bool.and_eq_true]
  simp

theorem dropWhile_ws_append {w : Str} (rest : Str) (h : allWSb w = true) :
    (w ++ rest).dropWhile isWS = rest.dropWhile isWS := by
  induction w with
  | nil => rfl
  | cons c cs ih =>
    have hc := (allWSb_cons.mp h).1
    have hcs := (allWSb_cons.mp h).2
    show ((c :: (cs ++ rest)).dropWhile isWS) = rest.dropWhile isWS
    rw [List.dropWhile_cons_of_pos hc]
    exact ih hcs

theorem dropWhile_nonws_head {c : Char} {t : Str} (h : isWS c = false) :
    (c :: t).dropWhile isWS = c :: t :=
  List.dropWhile_cons_of_neg (by simp [h])

theorem applyPat_nil (p : Pat) : applyPat p [] = [] := rfl

theorem tryPat_length {p : Pat} (hw : p.word ≠ []) :
    ∀ {s r : Str}, tryPat p s = some r → r.length < s.length := by
  intro s r h
  unfold tryPat at h
  split at h
  · exact absurd h (by simp)
  · split at h
    · exact absurd h (by simp)
    · rename_i r2 hlm
      split at h
      · exact absurd h (by simp)
      · have hr : r2.dropWhile isWS = r := by injection h
        have h1 : r.length ≤ r2.length := by
          rw [← hr]
          exact (List.dropWhile_sublist _).length_le
        have h2 := litMatch_length hlm
        have h3 : (s.dropWhile isWS).length ≤ s.length := (List.dropWhile_sublist _).length_le
        have h4 : 1 ≤ p.word.length := by
          cases hww : p.word with
          | nil => exact absurd hww hw
          | cons a b => simp
        omega

theorem goPat_fuel {p : Pat} (hw : p.word ≠ []) :
    ∀ f (s : Str), s.length ≤ f → goPat p f s = applyPat p s := by
  intro f
  induction f using Nat.strong_induction_on with
  | _ f ih =>
    intro s hs
    cases f with
    | zero =>
      cases s with
      | nil => rfl
      | cons c cs => simp at hs
    | succ f' =>
      cases s with
      | nil => rfl
      | cons c cs =>
        have hs' : cs.length + 1 ≤ f' + 1 := by simpa using hs
        show goPat p (f' + 1) (c :: cs) = goPat p (c :: cs).length (c :: cs)
        rw [show (c :: cs).length = cs.length + 1 from rfl]
        unfold goPat
        cases htry : tryPat p (c :: cs) with
        | some r =>
          have hr : r.length < cs.length + 1 := by
            have := tryPat_length hw htry
            simpa using this
          have e1 : goPat p f' r = applyPat p r := ih f' (by omega) r (by omega)
          have e2 : goPat p cs.length r = applyPat p r := ih cs.length (by omega) r (by omega)
          simp only [e1, e2]
        | none =>
          have e1 : goPat p f' cs = applyPat p cs := ih f' (by omega) cs (by omega)
          have e2 : goPat p cs.length cs = applyPat p cs := rfl
          simp only [e1, e2]

theorem applyPat_cons_none {p : Pat} {c : Char} {cs : Str} (h : tryPat p (c :: cs) = none) :
    applyPat p (c :: cs) = c :: applyPat p cs := by
  show goPat p (c :: cs).length (c :: cs) = _
  rw [show (c :: cs).length = cs.length + 1 from rfl]
  unfold goPat
  rw [h]
  rfl

theorem applyPat_cons_some {p : Pat} (hw : p.word ≠ []) {c : Char} {cs r : Str}
    (h : tryPat p (c :: cs) = some r) :
    applyPat p (c :: cs) = p.repl :: applyPat p r := by
  show goPat p (c :: cs).length (c :: cs) = _
  rw [show (c :: cs).length = cs.length + 1 from rfl]
  unfold goPat
  rw [h]
  show p.repl :: goPat p cs.length r = p.repl :: applyPat p r
  rw [goPat_fuel hw cs.length r (by have := tryPat_length hw h; simp at this; omega)]

theorem applyPat_of_some {p : Pat} (hw : p.word ≠ []) {s r : Str}
    (h : tryPat p s = some r) (hne : s ≠ []) :
    applyPat p s = p.repl :: applyPat p r := by
  cases s with
  | nil => exact absurd rfl hne
  | cons c cs => exact applyPat_cons_some hw h

theorem applyPat_skip_text {p : Pat} (hw : p.word ≠ []) :
    ∀ (t rest : Str), noWSb t = true →
      (p.spaced = true ∨ brSafeChunk p.word t = true) →
      applyPat p (t ++ rest) = t ++ applyPat p rest := by
  intro t
  induction t with
  | nil => intro rest _ _; rfl
  | cons c cs ih =>
    intro rest hnws hcond
    have hc := (noWSb_cons.mp hnws).1
    have hcs := (noWSb_cons.mp hnws).2
    have htake : (c :: (cs ++ rest)).takeWhile isWS = [] :=
      List.takeWhile_cons_of_neg (by simp [hc])
    have htry : tryPat p (c :: (cs ++ rest)) = none := by
      unfold tryPat
      cases hsp : p.spaced with
      | true =>
        rw [if_pos]
        rw [htake]
        rfl
      | false =>
        rw [if_neg (by simp)]
        have hfail : litFailsIn p.word (c :: cs) = true := by
          rcases hcond with hsp' | hsafe
          · rw [hsp'] at hsp; cases hsp
          · unfold brSafeChunk at hsafe
            exact ((Bool.and_eq_true ..).mp hsafe).1
        have hnone : litMatch p.word (c :: (cs ++ rest)) = none := by
          have := litFailsIn_spec hfail rest
          simpa using this
        rw [dropWhile_nonws_head hc, hnone]
    show applyPat p (c :: (cs ++ rest)) = c :: (cs ++ applyPat p rest)
    rw [applyPat_cons_none htry]
    have hcond' : p.spaced = true ∨ brSafeChunk p.word cs = true := by
      rcases hcond with hsp' | hsafe
      · exact Or.inl hsp'
      · unfold brSafeChunk at hsafe
        exact Or.inr ((Bool.and_eq_true ..).mp hsafe).2
    rw [ih rest hcs hcond']

theorem applyPat_skip_ws {p : Pat} (hw : p.word ≠ []) :
    ∀ (w rest : Str), allWSb w = true → wsSkipOK p rest = true →
      applyPat p (w ++ rest) = w ++ applyPat p rest := by
  intro w
  induction w with
  | nil => intro rest _ _; rfl
  | cons c cs ih =>
    intro rest hws hok
    have hc := (allWSb_cons.mp hws).1
    have hcs := (allWSb_cons.mp hws).2
    have hdrop : (c :: (cs ++ rest)).dropWhile isWS = rest.dropWhile isWS := by
      have : ((c :: cs) ++ rest).dropWhile isWS = rest.dropWhile isWS :=
        dropWhile_ws_append rest hws
      simpa using this
    have htry : tryPat p (c :: (cs ++ rest)) = none := by
      unfold tryPat
      unfold wsSkipOK at hok
      rw [if_neg]
      · rw [hdrop]
        cases hlm : litMatch p.word (rest.dropWhile isWS) with
        | none => rfl
        | some r =>
          rw [hlm] at hok
          have hok' : (p.spaced && (r.takeWhile isWS).isEmpty) = true := hok
          show (if (p.spaced && (r.takeWhile isWS).isEmpty) = true
              then none else some (r.dropWhile isWS)) = (none : Option Str)
          rw [if_pos hok']
      · intro hcontra
        have h1 := (Bool.and_eq_true ..).mp hcontra
        have h2 : (c :: (cs ++ rest)).takeWhile isWS = c :: (cs ++ rest).takeWhile isWS :=
          List.takeWhile_cons_of_pos hc
        rw [h2] at h1
        simp at h1
    show applyPat p (c :: (cs ++ rest)) = c :: (cs ++ applyPat p rest)
    rw [applyPat_cons_none htry]
    rw [ih rest hcs hok]

theorem wsSkipOK_nil {p : Pat} (hw : p.word ≠ []) : wsSkipOK p [] = true := by
  unfold wsSkipOK
  cases hww : p.word with
  | nil => exact absurd hww hw
  | cons a b => rfl

theorem applyPat_ws_end {p : Pat} (hw : p.word ≠ []) {w : Str} (hws : allWSb w = true) :
    applyPat p w = w := by
  have := applyPat_skip_ws hw w [] hws (wsSkipOK_nil hw)
  simpa [applyPat_nil] using this

theorem wsSkipOK_of_litFailsIn {p : Pat} {c : Char} {cs r2 : Str}
    (hfail : litFailsIn p.word (c :: cs) = true) (hc : isWS c = false) :
    wsSkipOK p ((c :: cs) ++ r2) = true := by
  unfold wsSkipOK
  have hdrop : ((c :: cs) ++ r2).dropWhile isWS = (c :: cs) ++ r2 := by
    have : ((c :: cs) ++ r2) = c :: (cs ++ r2) := rfl
    rw [this, dropWhile_nonws_head hc]
  rw [hdrop]
  rw [litFailsIn_spec hfail r2]

/-- A bare-word match starting at a text chunk `t` (all non-whitespace,
not itself spelling the word) either fails outright, or ends inside `t`
with a non-whitespace continuation — either way a spaced pattern cannot
fire there. -/
theorem spacedNoFire : ∀ (w t rest2 : Str),
    (∀ ch ∈ w, isAlphaChar ch = true) →
    noWSb t = true → pyLower t ≠ w → headSafeB rest2 = true →
    (litMatch w (t ++ rest2) = none ∨
     ∃ r, litMatch w (t ++ rest2) = some r ∧ (r.takeWhile isWS).isEmpty = true) := by
  intro w t
  induction t generalizing w with
  | nil =>
    intro rest2 halpha _ hne hhs
    cases w with
    | nil => exact absurd rfl hne
    | cons l ls =>
      cases rest2 with
      | nil => left; rfl
      | cons h hs =>
        left
        show litMatch (l :: ls) (h :: hs) = none
        unfold litMatch
        rw [if_neg]
        intro heq
        have ha1 : isAlphaChar l = true := halpha l (by simp)
        have ha2 : isAlphaChar h = false := by
          unfold headSafeB at hhs
          simpa using hhs
        rw [← heq, isAlphaChar_lowerChar] at ha1
        rw [ha1] at ha2
        cases ha2
  | cons c cs ih =>
    intro rest2 halpha hnws hne hhs
    have hc := (noWSb_cons.mp hnws).1
    have hcs := (noWSb_cons.mp hnws).2
    cases w with
    | nil =>
      right
      refine ⟨(c :: cs) ++ rest2, rfl, ?_⟩
      have : ((c :: cs) ++ rest2).takeWhile isWS = [] := by
        show (c :: (cs ++ rest2)).takeWhile isWS = []
        exact List.takeWhile_cons_of_neg (by simp [hc])
      rw [this]
      rfl
    | cons l ls =>
      by_cases heq : lowerChar c = l
      · have hstep : litMatch (l :: ls) ((c :: cs) ++ rest2) = litMatch ls (cs ++ rest2) := by
          show litMatch (l :: ls) (c :: (cs ++ rest2)) = litMatch ls (cs ++ rest2)
          rw [show litMatch (l :: ls) (c :: (cs ++ rest2)) =
            (if lowerChar c = l then litMatch ls (cs ++ rest2) else none) from rfl]
          rw [if_pos heq]
        have hne' : pyLower cs ≠ ls := by
          intro hcontra
          apply hne
          show lowerChar c :: pyLower cs = l :: ls
          rw [heq, hcontra]
        rcases ih ls rest2 (fun ch hch => halpha ch (by simp [hch])) hcs hne' hhs with
          h | ⟨r, hr, hre⟩
        · left; rw [hstep]; exact h
        · right; exact ⟨r, by rw [hstep]; exact hr, hre⟩
      · left
        show litMatch (l :: ls) (c :: (cs ++ rest2)) = none
        unfold litMatch
        rw [if_neg heq]

theorem wsSkipOK_spacedText {p : Pat} (hsp : p.spaced = true)
    (halpha : ∀ ch ∈ p.word, isAlphaChar ch = true)
    {t r2 : Str} (htne : t ≠ []) (hnws : noWSb t = true)
    (hne : pyLower t ≠ p.word) (hhs : headSafeB r2 = true) :
    wsSkipOK p (t ++ r2) = true := by
  unfold wsSkipOK
  have hdrop : (t ++ r2).dropWhile isWS = t ++ r2 := by
    cases t with
    | nil => exact absurd rfl htne
    | cons c cs =>
      have hc := (noWSb_cons.mp hnws).1
      show (c :: (cs ++ r2)).dropWhile isWS = c :: (cs ++ r2)
      rw [dropWhile_nonws_head hc]
  rw [hdrop]
  rcases spacedNoFire p.word t r2 halpha hnws hne hhs with h | ⟨r, hr, hre⟩
  · rw [h]
  · rw [hr]
    show (p.spaced && (r.takeWhile isWS).isEmpty) = true
    rw [hsp, hre]
    rfl

theorem tryPat_fire {p : Pat} (hw : p.word ≠ []) (hwn : noWSb p.word = true)
    {w1 c w2 rest : Str}
    (h1 : allWSb w1 = true) (hc : pyLower c = p.word) (h2 : allWSb w2 = true)
    (hrest : rest.dropWhile isWS = rest)
    (hsp : p.spaced = true → (w1 ≠ [] ∧ w2 ≠ [])) :
    tryPat p (w1 ++ c ++ w2 ++ rest) = some rest := by
  have hcne : c ≠ [] := by
    intro hh
    rw [hh] at hc
    exact hw (by simpa using hc.symm)
  have hcnws : ∀ x ∈ c, isWS x = false := by
    intro x hx
    have hmem : lowerChar x ∈ p.word := by
      rw [← hc]
      exact List.mem_map_of_mem _ hx
    have hws := List.all_eq_true.mp hwn _ hmem
    rw [← isWS_lowerChar x]
    simpa using hws
  have hfirst : (p.spaced && ((w1 ++ c ++ w2 ++ rest).takeWhile isWS).isEmpty) = false := by
    cases hspv : p.spaced with
    | false => rfl
    | true =>
      obtain ⟨hw1ne, _⟩ := hsp hspv
      cases w1 with
      | nil => exact absurd rfl hw1ne
      | cons a as =>
        have ha := (allWSb_cons.mp h1).1
        show (true && ((a :: (as ++ c ++ w2 ++ rest)).takeWhile isWS).isEmpty) = false
        rw [List.takeWhile_cons_of_pos ha]
        rfl
  have hdropall : (w1 ++ c ++ w2 ++ rest).dropWhile isWS = c ++ (w2 ++ rest) := by
    have e1 : w1 ++ c ++ w2 ++ rest = w1 ++ (c ++ (w2 ++ rest)) := by
      simp [List.append_assoc]
    rw [e1, dropWhile_ws_append _ h1]
    cases c with
    | nil => exact absurd rfl hcne
    | cons x xs =>
      have hx := hcnws x (by simp)
      show (x :: (xs ++ (w2 ++ rest))).dropWhile isWS = x :: (xs ++ (w2 ++ rest))
      rw [dropWhile_nonws_head hx]
  have hsecond : (p.spaced && ((w2 ++ rest).takeWhile isWS).isEmpty) = false := by
    cases hspv : p.spaced with
    | false => rfl
    | true =>
      obtain ⟨_, hw2ne⟩ := hsp hspv
      cases w2 with
      | nil => exact absurd rfl hw2ne
      | cons a as =>
        have ha := (allWSb_cons.mp h2).1
        show (true && ((a :: (as ++ rest)).takeWhile isWS).isEmpty) = false
        rw [List.takeWhile_cons_of_pos ha]
        rfl
  unfold tryPat
  rw [if_neg (by rw [hfirst]; simp)]
  rw [hdropall]
  rw [litMatch_of_lower (w2 ++ rest) hc]
  show (if (p.spaced && ((w2 ++ rest).takeWhile isWS).isEmpty) = true then none
      else some ((w2 ++ rest).dropWhile isWS)) = some rest
  rw [if_neg (by rw [hsecond]; simp)]
  rw [dropWhile_ws_append _ h2, hrest]

theorem applyPat_fire {p : Pat} (hw : p.word ≠ []) (hwn : noWSb p.word = true)
    {w1 c w2 rest : Str}
    (h1 : allWSb w1 = true) (hc : pyLower c = p.word) (h2 : allWSb w2 = true)
    (hrest : rest.dropWhile isWS = rest)
    (hsp : p.spaced = true → (w1 ≠ [] ∧ w2 ≠ [])) :
    applyPat p (w1 ++ c ++ w2 ++ rest) = p.repl :: applyPat p rest := by
  have htry := tryPat_fire hw hwn h1 hc h2 hrest hsp
  have hcne : c ≠ [] := by
    intro hh
    rw [hh] at hc
    exact hw (by simpa using hc.symm)
  have hne : w1 ++ c ++ w2 ++ rest ≠ [] := by
    intro hh
    simp [List.append_eq_nil] at hh
    exact hcne hh.2.1
  exact applyPat_of_some hw htry hne

theorem shapeOf_mem (m : Mark) : shapeOf m ∈ markShapes := by
  cases m <;> simp [shapeOf, markShapes]

theorem firesOn_shapeOf (p : Pat) (w : Str) (m : Mark) :
    firesOn p w m = firesOn p w (shapeOf m) := by
  cases m <;> rfl

theorem markLower_shapeOf (w : Str) (m : Mark) :
    markLower w m = markLower w (shapeOf m) := by
  cases m <;> rfl

theorem shapeOf_ne_lit {m : Mark} (h : m ≠ Mark.lit) : shapeOf m ≠ Mark.lit := by
  cases m with
  | lit => exact absurd rfl h
  | brk w1 c w2 => simp [shapeOf]
  | par w1 c w2 => simp [shapeOf]
  | spc w1 c w2 => simp [shapeOf]

theorem noWSb_of_lower {c L : Str} (hc : pyLower c = L) (hL : noWSb L = true) :
    noWSb c = true := by
  unfold noWSb at hL ⊢
  rw [List.all_eq_true] at hL ⊢
  intro x hx
  have hm : lowerChar x ∈ L := by
    rw [← hc]
    exact List.mem_map_of_mem _ hx
  have hx' := hL _ hm
  simp at hx' ⊢
  rw [← isWS_lowerChar x]
  exact hx'

theorem headSafeB_ws {w : Str} (h : allWSb w = true) : headSafeB w = true := by
  cases w with
  | nil => rfl
  | cons c cs =>
    have hc := (allWSb_cons.mp h).1
    show (!isAlphaChar c) = true
    rw [isWS_not_alpha hc]
    rfl

theorem markHeadSafe {w : Str} {m : Mark} {real : Char} (hm : markOK w m)
    (hreal : isAlphaChar real = false) (rest : Str) :
    headSafeB (renderMark real m ++ rest) = true := by
  cases m with
  | lit =>
    show (!isAlphaChar real) = true
    rw [hreal]
    rfl
  | brk w1 c w2 =>
    obtain ⟨h1, h2, hc⟩ := hm
    cases w1 with
    | cons a as =>
      have ha := (allWSb_cons.mp h1).1
      show (!isAlphaChar a) = true
      rw [isWS_not_alpha ha]
      rfl
    | nil =>
      cases c with
      | nil =>
        have hh : ([] : Str) = '[' :: w ++ [']'] := hc
        exact absurd hh (by simp)
      | cons x xs =>
        have hh : lowerChar x :: pyLower xs = '[' :: (w ++ [']']) := hc
        injection hh with hx hxs
        show (!isAlphaChar x) = true
        rw [show isAlphaChar x = isAlphaChar (lowerChar x) from (isAlphaChar_lowerChar x).symm]
        rw [hx]
        rfl
  | par w1 c w2 =>
    obtain ⟨h1, h2, hc⟩ := hm
    cases w1 with
    | cons a as =>
      have ha := (allWSb_cons.mp h1).1
      show (!isAlphaChar a) = true
      rw [isWS_not_alpha ha]
      rfl
    | nil =>
      cases c with
      | nil =>
        have hh : ([] : Str) = '(' :: w ++ [')'] := hc
        exact absurd hh (by simp)
      | cons x xs =>
        have hh : lowerChar x :: pyLower xs = '(' :: (w ++ [')']) := hc
        injection hh with hx hxs
        show (!isAlphaChar x) = true
        rw [show isAlphaChar x = isAlphaChar (lowerChar x) from (isAlphaChar_lowerChar x).symm]
        rw [hx]
        rfl
  | spc w1 c w2 =>
    obtain ⟨h1, hne1, h2, hne2, hc⟩ := hm
    cases w1 with
    | nil => exact absurd rfl hne1
    | cons a as =>
      have ha := (allWSb_cons.mp h1).1
      show (!isAlphaChar a) = true
      rw [isWS_not_alpha ha]
      rfl

theorem applyPat_skip_textclass {p : Pat} (hpf : passFacts p) (t rest : Str)
    (hcls : ∀ c ∈ t, isTextChar c = true) :
    applyPat p (t ++ rest) = t ++ applyPat p rest := by
  obtain ⟨hw, hwn, hA, hD, hE, hFat, hFdot, hskip⟩ := hpf
  apply applyPat_skip_text hw t rest
  · unfold noWSb
    rw [List.all_eq_true]
    intro x hx
    simp
    exact isTextChar_not_ws (hcls x hx)
  · cases hsp : p.spaced with
    | true => exact Or.inl rfl
    | false =>
      refine Or.inr ?_
      cases hwv : p.word with
      | nil => exact absurd hwv hw
      | cons l ls =>
        rcases hE hsp with hh | hh <;> rw [hwv] at hh <;> simp at hh
        · rw [hh]
          apply brSafe_of_head
          intro c hcmem
          exact (isTextChar_lower_ne_brackets (hcls c hcmem)).1
        · rw [hh]
          apply brSafe_of_head
          intro c hcmem
          exact (isTextChar_lower_ne_brackets (hcls c hcmem)).2

theorem wsSkipOK_textnext {p : Pat} (hpf : passFacts p) {t r2 : Str}
    (htne : t ≠ []) (hcls : ∀ c ∈ t, isLocalChar c = true)
    (hna : pyLower t ≠ "at".toList) (hnd : pyLower t ≠ "dot".toList)
    (hhs : headSafeB r2 = true) :
    wsSkipOK p (t ++ r2) = true := by
  obtain ⟨hw, hwn, hA, hD, hE, hFat, hFdot, hskip⟩ := hpf
  have hnws : noWSb t = true := by
    unfold noWSb
    rw [List.all_eq_true]
    intro x hx
    simp
    exact isTextChar_not_ws (isLocalChar_isText (hcls x hx))
  cases hsp : p.spaced with
  | true =>
    have hne : pyLower t ≠ p.word := by
      rcases hD hsp with hh | hh <;> rw [hh]
      · exact hna
      · exact hnd
    exact wsSkipOK_spacedText hsp (hA hsp) htne hnws hne hhs
  | false =>
    cases t with
    | nil => exact absurd rfl htne
    | cons c cs =>
      have hc : isWS c = false := (noWSb_cons.mp hnws).1
      have hct : isTextChar c = true := isLocalChar_isText (hcls c (by simp))
      have hfail : litFailsIn p.word (c :: cs) = true := by
        cases hwv : p.word with
        | nil => exact absurd hwv hw
        | cons l ls =>
          have hcl : lowerChar c ≠ l := by
            rcases hE hsp with hh | hh <;> rw [hwv] at hh <;> simp at hh
            · rw [hh]
              exact (isTextChar_lower_ne_brackets hct).1
            · rw [hh]
              exact (isTextChar_lower_ne_brackets hct).2
          unfold litFailsIn
          rw [if_neg hcl]
      exact wsSkipOK_of_litFailsIn hfail hc

theorem applyPat_fire_mark {p : Pat} (hw : p.word ≠ []) (hwn : noWSb p.word = true)
    {w : Str} {m : Mark} {rest : Str} (real : Char)
    (hm : markOK w m) (hfire : firesOn p w m = true)
    (hrest : rest.dropWhile isWS = rest) :
    applyPat p (renderMark real m ++ rest) = p.repl :: applyPat p rest := by
  cases m with
  | lit => exact absurd hfire (by simp [firesOn])
  | brk w1 c w2 =>
    obtain ⟨h1, h2, hc⟩ := hm
    unfold firesOn at hfire
    rw [Bool.and_eq_true] at hfire
    have hspn : p.spaced = false := by
      have hh := hfire.1
      cases hv : p.spaced
      · rfl
      · rw [hv] at hh
        exact absurd hh (by simp)
    have hword : p.word = '[' :: w ++ [']'] := eq_of_beq hfire.2
    have hc' : pyLower c = p.word := by rw [hword, hc]
    exact applyPat_fire hw hwn h1 hc' h2 hrest (fun hspc => absurd hspc (by simp [hspn]))
  | par w1 c w2 =>
    obtain ⟨h1, h2, hc⟩ := hm
    unfold firesOn at hfire
    rw [Bool.and_eq_true] at hfire
    have hword : p.word = '(' :: w ++ [')'] := eq_of_beq hfire.2
    have hspn : p.spaced = false := by
      have hh := hfire.1
      cases hv : p.spaced
      · rfl
      · rw [hv] at hh
        exact absurd hh (by simp)
    have hc' : pyLower c = p.word := by rw [hword, hc]
    exact applyPat_fire hw hwn h1 hc' h2 hrest (fun hspc => absurd hspc (by simp [hspn]))
  | spc w1 c w2 =>
    obtain ⟨h1, hne1, h2, hne2, hc⟩ := hm
    unfold firesOn at hfire
    rw [Bool.and_eq_true] at hfire
    have hword : p.word = w := eq_of_beq hfire.2
    have hc' : pyLower c = p.word := by rw [hword, hc]
    exact applyPat_fire hw hwn h1 hc' h2 hrest (fun _ => ⟨hne1, hne2⟩)

theorem applyPat_skip_mark {p : Pat} (hw : p.word ≠ []) {w : Str} {m : Mark}
    (real : Char) {rest : Str} (hm : markOK w m)
    (hlf : litFailsIn p.word (markLower w m) = true)
    (hbs : p.spaced = false → brSafeChunk p.word (markLower w m) = true)
    (hmlnws : noWSb (markLower w m) = true)
    (hmlne : markLower w m ≠ [])
    (hnext : wsSkipOK p rest = true) :
    applyPat p (renderMark real m ++ rest) = renderMark real m ++ applyPat p rest := by
  cases m with
  | lit => exact absurd rfl hmlne
  | brk w1 c w2 =>
    obtain ⟨h1, h2, hc⟩ := hm
    have hcfail : litFailsIn p.word c = true := by
      rw [← litFailsIn_lower p.word c, hc]
      exact hlf
    have hcnws : noWSb c = true := noWSb_of_lower hc hmlnws
    cases c with
    | nil =>
      have hh : ([] : Str) = '[' :: w ++ [']'] := hc
      exact absurd hh (by simp)
    | cons x xs =>
      have hx : isWS x = false := (noWSb_cons.mp hcnws).1
      have hws1 : wsSkipOK p ((x :: xs) ++ (w2 ++ rest)) = true :=
        wsSkipOK_of_litFailsIn hcfail hx
      have hcsafe : p.spaced = true ∨ brSafeChunk p.word (x :: xs) = true := by
        cases hsp : p.spaced with
        | true => exact Or.inl rfl
        | false =>
          refine Or.inr ?_
          rw [← brSafeChunk_lower p.word (x :: xs), hc]
          exact hbs hsp
      have e1 : renderMark real (Mark.brk w1 (x :: xs) w2) ++ rest
          = w1 ++ ((x :: xs) ++ (w2 ++ rest)) := by
        show (w1 ++ (x :: xs) ++ w2) ++ rest = w1 ++ ((x :: xs) ++ (w2 ++ rest))
        simp [List.append_assoc]
      rw [e1]
      rw [applyPat_skip_ws hw w1 _ h1 hws1]
      rw [applyPat_skip_text hw (x :: xs) _ hcnws hcsafe]
      rw [applyPat_skip_ws hw w2 _ h2 hnext]
      show _ = (w1 ++ (x :: xs) ++ w2) ++ applyPat p rest
      simp [List.append_assoc]
  | par w1 c w2 =>
    obtain ⟨h1, h2, hc⟩ := hm
    have hcfail : litFailsIn p.word c = true := by
      rw [← litFailsIn_lower p.word c, hc]
      exact hlf
    have hcnws : noWSb c = true := noWSb_of_lower hc hmlnws
    cases c with
    | nil =>
      have hh : ([] : Str) = '(' :: w ++ [')'] := hc
      exact absurd hh (by simp)
    | cons x xs =>
      have hx : isWS x = false := (noWSb_cons.mp hcnws).1
      have hws1 : wsSkipOK p ((x :: xs) ++ (w2 ++ rest)) = true :=
        wsSkipOK_of_litFailsIn hcfail hx
      have hcsafe : p.spaced = true ∨ brSafeChunk p.word (x :: xs) = true := by
        cases hsp : p.spaced with
        | true => exact Or.inl rfl
        | false =>
          refine Or.inr ?_
          rw [← brSafeChunk_lower p.word (x :: xs), hc]
          exact hbs hsp
      have e1 : renderMark real (Mark.par w1 (x :: xs) w2) ++ rest
          = w1 ++ ((x :: xs) ++ (w2 ++ rest)) := by
        show (w1 ++ (x :: xs) ++ w2) ++ rest = w1 ++ ((x :: xs) ++ (w2 ++ rest))
        simp [List.append_assoc]
      rw [e1]
      rw [applyPat_skip_ws hw w1 _ h1 hws1]
      rw [applyPat_skip_text hw (x :: xs) _ hcnws hcsafe]
      rw [applyPat_skip_ws hw w2 _ h2 hnext]
      show _ = (w1 ++ (x :: xs) ++ w2) ++ applyPat p rest
      simp [List.append_assoc]
  | spc w1 c w2 =>
    obtain ⟨h1, hne1, h2, hne2, hc⟩ := hm
    have hcfail : litFailsIn p.word c = true := by
      rw [← litFailsIn_lower p.word c, hc]
      exact hlf
    have hcnws : noWSb c = true := noWSb_of_lower hc hmlnws
    cases c with
    | nil =>
      have hh : pyLower ([] : Str) = markLower w (Mark.spc w1 [] w2) := hc
      exact absurd hh.symm (by simpa using hmlne)
    | cons x xs =>
      have hx : isWS x = false := (noWSb_cons.mp hcnws).1
      have hws1 : wsSkipOK p ((x :: xs) ++ (w2 ++ rest)) = true :=
        wsSkipOK_of_litFailsIn hcfail hx
      have hcsafe : p.spaced = true ∨ brSafeChunk p.word (x :: xs) = true := by
        cases hsp : p.spaced with
        | true => exact Or.inl rfl
        | false =>
          refine Or.inr ?_
          rw [← brSafeChunk_lower p.word (x :: xs), hc]
          exact hbs hsp
      have e1 : renderMark real (Mark.spc w1 (x :: xs) w2) ++ rest
          = w1 ++ ((x :: xs) ++ (w2 ++ rest)) := by
        show (w1 ++ (x :: xs) ++ w2) ++ rest = w1 ++ ((x :: xs) ++ (w2 ++ rest))
        simp [List.append_assoc]
      rw [e1]
      rw [applyPat_skip_ws hw w1 _ h1 hws1]
      rw [applyPat_skip_text hw (x :: xs) _ hcnws hcsafe]
      rw [applyPat_skip_ws hw w2 _ h2 hnext]
      show _ = (w1 ++ (x :: xs) ++ w2) ++ applyPat p rest
      simp [List.append_assoc]

theorem alpha_not_ws {c : Char} (h : isAlphaChar c = true) : isWS c = false :=
  isTextChar_not_ws (isLocalChar_isText (isAlphaChar_isLocal h))

theorem mids_dropWhile {ms : List (Str × Mark)} {tld ws3 : Str}
    (hms : ∀ q ∈ ms, labelOK q.1 ∧ markOK "dot".toList q.2)
    (htld : tldOK tld) :
    (midsRender ms (tld ++ ws3)).dropWhile isWS = midsRender ms (tld ++ ws3) := by
  cases ms with
  | nil =>
    show (tld ++ ws3).dropWhile isWS = tld ++ ws3
    cases tld with
    | nil =>
      obtain ⟨hlen, _⟩ := htld
      simp at hlen
    | cons c cs =>
      have hca : isAlphaChar c = true := htld.2.1 c (by simp)
      show (c :: (cs ++ ws3)).dropWhile isWS = c :: (cs ++ ws3)
      exact dropWhile_nonws_head (alpha_not_ws hca)
  | cons q qs =>
    obtain ⟨lab, m⟩ := q
    obtain ⟨⟨hlne, hlcls, hna, hnd⟩, hmk⟩ := hms (lab, m) (by simp)
    cases lab with
    | nil => exact absurd rfl hlne
    | cons c cs =>
      have hc : isWS c = false :=
        isTextChar_not_ws (isLocalChar_isText (isLabChar_isLocal (hlcls c (by simp))))
      show ((c :: cs) ++ renderMark '.' m ++ midsRender qs (tld ++ ws3)).dropWhile isWS = _
      rw [show (c :: cs) ++ renderMark '.' m ++ midsRender qs (tld ++ ws3)
          = c :: (cs ++ (renderMark '.' m ++ midsRender qs (tld ++ ws3))) by simp]
      rw [dropWhile_nonws_head hc]
      simp [midsRender]

theorem wsSkipOK_mids {p : Pat} (hpf : passFacts p) {ms : List (Str × Mark)} {tld ws3 : Str}
    (hms : ∀ q ∈ ms, labelOK q.1 ∧ markOK "dot".toList q.2)
    (htld : tldOK tld) (hws3 : allWSb ws3 = true) :
    wsSkipOK p (midsRender ms (tld ++ ws3)) = true := by
  cases ms with
  | nil =>
    show wsSkipOK p (tld ++ ws3) = true
    have htne : tld ≠ [] := by
      intro hh
      have := htld.1
      rw [hh] at this
      simp at this
    exact wsSkipOK_textnext hpf htne
      (fun c hcm => isAlphaChar_isLocal (htld.2.1 c hcm))
      htld.2.2.1 htld.2.2.2 (headSafeB_ws hws3)
  | cons q qs =>
    obtain ⟨lab, m⟩ := q
    obtain ⟨⟨hlne, hlcls, hna, hnd⟩, hmk⟩ := hms (lab, m) (by simp)
    have e : midsRender ((lab, m) :: qs) (tld ++ ws3)
        = lab ++ (renderMark '.' m ++ midsRender qs (tld ++ ws3)) := by
      show lab ++ renderMark '.' m ++ midsRender qs (tld ++ ws3) = _
      simp [List.append_assoc]
    rw [e]
    exact wsSkipOK_textnext hpf hlne (fun c hcm => isLabChar_isLocal (hlcls c hcm))
      hna hnd (markHeadSafe hmk (by decide) _)

theorem applyPat_mids {p : Pat} (hpf : passFacts p) :
    ∀ (ms : List (Str × Mark)) (tld ws3 : Str),
      (∀ q ∈ ms, labelOK q.1 ∧ markOK "dot".toList q.2) →
      tldOK tld → allWSb ws3 = true →
      applyPat p (midsRender ms (tld ++ ws3)) =
        midsRender (ms.map fun q => (q.1, stepMark p ("dot".toList) q.2)) (tld ++ ws3) := by
  obtain ⟨hw, hwn, hA, hD, hE, hFat, hFdot, hskip⟩ := id hpf
  intro ms
  induction ms with
  | nil =>
    intro tld ws3 hms htld hws3
    show applyPat p (tld ++ ws3) = tld ++ ws3
    rw [applyPat_skip_textclass hpf tld ws3
      (fun c hcm => isLocalChar_isText (isAlphaChar_isLocal (htld.2.1 c hcm)))]
    rw [applyPat_ws_end hw hws3]
  | cons q qs ih =>
    intro tld ws3 hms htld hws3
    obtain ⟨lab, m⟩ := q
    obtain ⟨⟨hlne, hlcls, hna, hnd⟩, hmk⟩ := hms (lab, m) (by simp)
    have hqs : ∀ q ∈ qs, labelOK q.1 ∧ markOK "dot".toList q.2 :=
      fun q hq => hms q (by simp [hq])
    have e : midsRender ((lab, m) :: qs) (tld ++ ws3)
        = lab ++ (renderMark '.' m ++ midsRender qs (tld ++ ws3)) := by
      show lab ++ renderMark '.' m ++ midsRender qs (tld ++ ws3) = _
      simp [List.append_assoc]
    rw [e]
    rw [applyPat_skip_textclass hpf lab _
      (fun c hcm => isLocalChar_isText (isLabChar_isLocal (hlcls c hcm)))]
    cases hfire : firesOn p ("dot".toList) m with
    | true =>
      have hrest : (midsRender qs (tld ++ ws3)).dropWhile isWS = midsRender qs (tld ++ ws3) :=
        mids_dropWhile hqs htld
      rw [applyPat_fire_mark hw hwn '.' hmk hfire hrest]
      have hrepl : p.repl = '.' :=
        hFdot (shapeOf m) (shapeOf_mem m) (by rw [← firesOn_shapeOf]; exact hfire)
      rw [hrepl]
      rw [ih tld ws3 hqs htld hws3]
      have hsm : stepMark p ("dot".toList) m = Mark.lit := by
        unfold stepMark
        rw [hfire]
        rfl
      have eR : midsRender (((lab, m) :: qs).map fun q => (q.1, stepMark p ("dot".toList) q.2)) (tld ++ ws3)
          = lab ++ ('.' :: midsRender (qs.map fun q => (q.1, stepMark p ("dot".toList) q.2)) (tld ++ ws3)) := by
      --
        show lab ++ renderMark '.' (stepMark p ("dot".toList) m) ++
            midsRender (qs.map fun q => (q.1, stepMark p ("dot".toList) q.2)) (tld ++ ws3) = _
        rw [hsm]
        simp [renderMark]
      rw [eR]
    | false =>
      by_cases hml : m = Mark.lit
      · subst hml
        rw [show renderMark '.' Mark.lit = ['.'] from rfl]
        rw [applyPat_skip_textclass hpf ['.'] _
          (by intro c hcm; simp at hcm; subst hcm; decide)]
        rw [ih tld ws3 hqs htld hws3]
        have eR : midsRender (((lab, Mark.lit) :: qs).map fun q => (q.1, stepMark p ("dot".toList) q.2)) (tld ++ ws3)
            = lab ++ renderMark '.' (stepMark p ("dot".toList) Mark.lit) ++
              midsRender (qs.map fun q => (q.1, stepMark p ("dot".toList) q.2)) (tld ++ ws3) := rfl
        rw [eR]
        rw [show stepMark p ("dot".toList) Mark.lit = Mark.lit from rfl]
        simp [renderMark]
      · have hfire' : firesOn p ("dot".toList) (shapeOf m) = false := by
          rw [← firesOn_shapeOf]
          exact hfire
        obtain ⟨hlf, hbs, hmlnws, hmlne⟩ :=
          hskip ("dot".toList) (by simp) (shapeOf m) (shapeOf_mem m) (shapeOf_ne_lit hml) hfire'
        rw [← markLower_shapeOf] at hlf hbs hmlnws hmlne
        have hnext : wsSkipOK p (midsRender qs (tld ++ ws3)) = true :=
          wsSkipOK_mids hpf hqs htld hws3
        rw [applyPat_skip_mark hw '.' hmk hlf hbs hmlnws hmlne hnext]
        rw [ih tld ws3 hqs htld hws3]
        have hsm : stepMark p ("dot".toList) m = m := by
          unfold stepMark
          rw [hfire]
          rfl
        have eR : midsRender (((lab, m) :: qs).map fun q => (q.1, stepMark p ("dot".toList) q.2)) (tld ++ ws3)
            = lab ++ renderMark '.' (stepMark p ("dot".toList) m) ++
              midsRender (qs.map fun q => (q.1, stepMark p ("dot".toList) q.2)) (tld ++ ws3) := rfl
        rw [eR, hsm]
        simp [List.append_assoc]

theorem applyPat_renderObf {p : Pat} (hpf : passFacts p) (o : Obf) (ho : obfOK o) :
    applyPat p (renderObf o) = renderObf (stepObf p o) := by
  obtain ⟨hw, hwn, hA, hD, hE, hFat, hFdot, hskip⟩ := id hpf
  obtain ⟨ws0, locpart, atm, mids, tld, ws3⟩ := o
  obtain ⟨hws0, hloc, hatm, hmidne, hms, htld, hws3⟩ := ho
  obtain ⟨hlne, hlcls, hlna, hlnd⟩ := hloc
  have hMdrop : (midsRender mids (tld ++ ws3)).dropWhile isWS = midsRender mids (tld ++ ws3) :=
    mids_dropWhile hms htld
  have hMnext : wsSkipOK p (midsRender mids (tld ++ ws3)) = true :=
    wsSkipOK_mids hpf hms htld hws3
  have hHS : headSafeB (renderMark '@' atm ++ midsRender mids (tld ++ ws3)) = true :=
    markHeadSafe hatm (by decide) _
  have hws0skip : wsSkipOK p (locpart ++ (renderMark '@' atm ++ midsRender mids (tld ++ ws3))) = true :=
    wsSkipOK_textnext hpf hlne hlcls hlna hlnd hHS
  have e1 : renderObf ⟨ws0, locpart, atm, mids, tld, ws3⟩
      = ws0 ++ (locpart ++ (renderMark '@' atm ++ midsRender mids (tld ++ ws3))) := by
    show ws0 ++ locpart ++ renderMark '@' atm ++ midsRender mids (tld ++ ws3) = _
    simp [List.append_assoc]
  rw [e1]
  rw [applyPat_skip_ws hw ws0 _ hws0 hws0skip]
  rw [applyPat_skip_textclass hpf locpart _ (fun c hcm => isLocalChar_isText (hlcls c hcm))]
  cases hfire : firesOn p ("at".toList) atm with
  | true =>
    rw [applyPat_fire_mark hw hwn '@' hatm hfire hMdrop]
    have hrepl : p.repl = '@' :=
      hFat (shapeOf atm) (shapeOf_mem atm) (by rw [← firesOn_shapeOf]; exact hfire)
    rw [hrepl]
    rw [applyPat_mids hpf mids tld ws3 hms htld hws3]
    have hsm : stepMark p ("at".toList) atm = Mark.lit := by
      unfold stepMark
      rw [hfire]
      rfl
    have eR : renderObf (stepObf p ⟨ws0, locpart, atm, mids, tld, ws3⟩)
        = ws0 ++ (locpart ++ ('@' :: midsRender (mids.map fun q => (q.1, stepMark p ("dot".toList) q.2)) (tld ++ ws3))) := by
    --
      show ws0 ++ locpart ++ renderMark '@' (stepMark p ("at".toList) atm) ++
          midsRender (mids.map fun q => (q.1, stepMark p ("dot".toList) q.2)) (tld ++ ws3) = _
      rw [hsm]
      simp [renderMark]
    rw [eR]
  | false =>
    by_cases hml : atm = Mark.lit
    · subst hml
      rw [show renderMark '@' Mark.lit = ['@'] from rfl]
      rw [applyPat_skip_textclass hpf ['@'] _
        (by intro c hcm; simp at hcm; subst hcm; decide)]
      rw [applyPat_mids hpf mids tld ws3 hms htld hws3]
      have eR : renderObf (stepObf p ⟨ws0, locpart, Mark.lit, mids, tld, ws3⟩)
          = ws0 ++ locpart ++ renderMark '@' (stepMark p ("at".toList) Mark.lit) ++
            midsRender (mids.map fun q => (q.1, stepMark p ("dot".toList) q.2)) (tld ++ ws3) := rfl
      rw [eR]
      rw [show stepMark p ("at".toList) Mark.lit = Mark.lit from rfl]
      simp [renderMark, List.append_assoc]
    · have hfire' : firesOn p ("at".toList) (shapeOf atm) = false := by
        rw [← firesOn_shapeOf]
        exact hfire
      obtain ⟨hlf, hbs, hmlnws, hmlne⟩ :=
        hskip ("at".toList) (by simp) (shapeOf atm) (shapeOf_mem atm) (shapeOf_ne_lit hml) hfire'
      rw [← markLower_shapeOf] at hlf hbs hmlnws hmlne
      rw [applyPat_skip_mark hw '@' hatm hlf hbs hmlnws hmlne hMnext]
      rw [applyPat_mids hpf mids tld ws3 hms htld hws3]
      have hsm : stepMark p ("at".toList) atm = atm := by
        unfold stepMark
        rw [hfire]
        rfl
      have eR : renderObf (stepObf p ⟨ws0, locpart, atm, mids, tld, ws3⟩)
          = ws0 ++ locpart ++ renderMark '@' (stepMark p ("at".toList) atm) ++
            midsRender (mids.map fun q => (q.1, stepMark p ("dot".toList) q.2)) (tld ++ ws3) := rfl
      rw [eR, hsm]
      simp [List.append_assoc]

theorem passFacts_atBr : passFacts atBrPat := by
  unfold passFacts
  decide

theorem passFacts_atPar : passFacts atParPat := by
  unfold passFacts
  decide

theorem passFacts_atSp : passFacts atSpPat := by
  unfold passFacts
  decide

theorem passFacts_dotBr : passFacts dotBrPat := by
  unfold passFacts
  decide

theorem passFacts_dotPar : passFacts dotParPat := by
  unfold passFacts
  decide

theorem passFacts_dotSp : passFacts dotSpPat := by
  unfold passFacts
  decide

theorem markOK_stepMark (p : Pat) {w : Str} {m : Mark} (hm : markOK w m) :
    markOK w (stepMark p w m) := by
  unfold stepMark
  split
  · trivial
  · exact hm

theorem obfOK_stepObf (p : Pat) {o : Obf} (ho : obfOK o) : obfOK (stepObf p o) := by
  obtain ⟨hws0, hloc, hatm, hmidne, hms, htld, hws3⟩ := ho
  refine ⟨hws0, hloc, markOK_stepMark p hatm, ?_, ?_, htld, hws3⟩
  · show o.mids.map _ ≠ []
    simpa using hmidne
  · intro q hq
    rw [show (stepObf p o).mids = o.mids.map (fun q => (q.1, stepMark p ("dot".toList) q.2)) from rfl] at hq
    rw [List.mem_map] at hq
    obtain ⟨a, ha, rfl⟩ := hq
    obtain ⟨hl, hm⟩ := hms a ha
    exact ⟨hl, markOK_stepMark p hm⟩

theorem stepMark_at_chain {m : Mark} :
    stepMark dotSpPat ("at".toList) (stepMark dotParPat ("at".toList) (stepMark dotBrPat ("at".toList)
      (stepMark atSpPat ("at".toList) (stepMark atParPat ("at".toList) (stepMark atBrPat ("at".toList) m)))))
    = Mark.lit := by
  cases m <;> rfl

theorem stepMark_dot_chain {m : Mark} :
    stepMark dotSpPat ("dot".toList) (stepMark dotParPat ("dot".toList) (stepMark dotBrPat ("dot".toList)
      (stepMark atSpPat ("dot".toList) (stepMark atParPat ("dot".toList) (stepMark atBrPat ("dot".toList) m)))))
    = Mark.lit := by
  cases m <;> rfl

theorem midsRender_lit : ∀ (ms : List (Str × Mark)) (tld ws3 : Str),
    midsRender (ms.map fun q => (q.1, Mark.lit)) (tld ++ ws3) = (midsCanon ms tld) ++ ws3 := by
  intro ms
  induction ms with
  | nil => intro tld ws3; rfl
  | cons q qs ih =>
    intro tld ws3
    obtain ⟨lab, m⟩ := q
    show lab ++ renderMark '.' Mark.lit ++ midsRender (qs.map fun q => (q.1, Mark.lit)) (tld ++ ws3)
        = (lab ++ '.' :: midsCanon qs tld) ++ ws3
    rw [ih tld ws3]
    simp [renderMark]

theorem mids_all_lit : ∀ (ms : List (Str × Mark)),
    (((((ms.map fun q => (q.1, stepMark atBrPat ("dot".toList) q.2)).map
         fun q => (q.1, stepMark atParPat ("dot".toList) q.2)).map
         fun q => (q.1, stepMark atSpPat ("dot".toList) q.2)).map
         fun q => (q.1, stepMark dotBrPat ("dot".toList) q.2)).map
         fun q => (q.1, stepMark dotParPat ("dot".toList) q.2)).map
         (fun q => (q.1, stepMark dotSpPat ("dot".toList) q.2))
    = ms.map fun q => (q.1, Mark.lit) := by
  intro ms
  induction ms with
  | nil => rfl
  | cons q qs ih =>
    obtain ⟨lab, m⟩ := q
    simp only [List.map_cons]
    rw [ih]
    show (lab, stepMark dotSpPat ("dot".toList) (stepMark dotParPat ("dot".toList)
        (stepMark dotBrPat ("dot".toList) (stepMark atSpPat ("dot".toList)
          (stepMark atParPat ("dot".toList) (stepMark atBrPat ("dot".toList) m)))))) :: _
      = (lab, Mark.lit) :: _
    rw [stepMark_dot_chain]

set_option maxHeartbeats 1600000 in
theorem deobfuscate_renderObf {o : Obf} (ho : obfOK o) :
    deobfuscate (renderObf o) = o.ws0 ++ (canonEmail o ++ o.ws3) := by
  have h1 := obfOK_stepObf atBrPat ho
  have h2 := obfOK_stepObf atParPat h1
  have h3 := obfOK_stepObf atSpPat h2
  have h4 := obfOK_stepObf dotBrPat h3
  have h5 := obfOK_stepObf dotParPat h4
  show applyPat dotSpPat (applyPat dotParPat (applyPat dotBrPat (applyPat atSpPat
      (applyPat atParPat (applyPat atBrPat (renderObf o)))))) = o.ws0 ++ (canonEmail o ++ o.ws3)
  rw [applyPat_renderObf passFacts_atBr o ho]
  rw [applyPat_renderObf passFacts_atPar _ h1]
  rw [applyPat_renderObf passFacts_atSp _ h2]
  rw [applyPat_renderObf passFacts_dotBr _ h3]
  rw [applyPat_renderObf passFacts_dotPar _ h4]
  rw [applyPat_renderObf passFacts_dotSp _ h5]
  obtain ⟨ws0, locpart, atm, mids, tld, ws3⟩ := o
  show ws0 ++ locpart ++
      renderMark '@' (stepMark dotSpPat ("at".toList) (stepMark dotParPat ("at".toList)
        (stepMark dotBrPat ("at".toList) (stepMark atSpPat ("at".toList)
          (stepMark atParPat ("at".toList) (stepMark atBrPat ("at".toList) atm)))))) ++
      midsRender
        (((((mids.map fun q => (q.1, stepMark atBrPat ("dot".toList) q.2)).map
           fun q => (q.1, stepMark atParPat ("dot".toList) q.2)).map
           fun q => (q.1, stepMark atSpPat ("dot".toList) q.2)).map
           fun q => (q.1, stepMark dotBrPat ("dot".toList) q.2)).map
           (fun q => (q.1, stepMark dotParPat ("dot".toList) q.2)) |>.map
           (fun q => (q.1, stepMark dotSpPat ("dot".toList) q.2)))
        (tld ++ ws3)
      = ws0 ++ ((locpart ++ '@' :: midsCanon mids tld) ++ ws3)
  rw [stepMark_at_chain]
  rw [mids_all_lit]
  rw [midsRender_lit]
  simp [renderMark, List.append_assoc]

theorem isWS_not_local {c : Char} (h : isWS c = true) : isLocalChar c = false := by
  have := (isWS_toNat c).mp h
  cases hl : isLocalChar c with
  | false => rfl
  | true => have := (isLocalChar_toNat c).mp hl; omega

theorem isDomainChar_toNat (c : Char) : isDomainChar c = true ↔
    (65 ≤ c.toNat ∧ c.toNat ≤ 90) ∨ (97 ≤ c.toNat ∧ c.toNat ≤ 122) ∨
    (48 ≤ c.toNat ∧ c.toNat ≤ 57) ∨ c.toNat = 46 ∨ c.toNat = 45 := by
  unfold isDomainChar
  simp only [Bool.or_eq_true, Bool.and_eq_true, decide_eq_true_eq]
  rw [show (('A' ≤ c) ↔ 65 ≤ c.toNat) from Iff.rfl]
  rw [show ((c ≤ 'Z') ↔ c.toNat ≤ 90) from Iff.rfl]
  rw [show (('a' ≤ c) ↔ 97 ≤ c.toNat) from Iff.rfl]
  rw [show ((c ≤ 'z') ↔ c.toNat ≤ 122) from Iff.rfl]
  rw [show (('0' ≤ c) ↔ 48 ≤ c.toNat) from Iff.rfl]
  rw [show ((c ≤ '9') ↔ c.toNat ≤ 57) from Iff.rfl]
  rw [char_eq_iff_toNat c '.', char_eq_iff_toNat c '-']
  rw [show ('.' : Char).toNat = 46 from rfl, show ('-' : Char).toNat = 45 from rfl]
  tauto

theorem isWS_not_domain {c : Char} (h : isWS c = true) : isDomainChar c = false := by
  have := (isWS_toNat c).mp h
  cases hl : isDomainChar c with
  | false => rfl
  | true => have := (isDomainChar_toNat c).mp hl; omega

theorem isLabChar_isDomain {c : Char} (h : isLabChar c = true) : isDomainChar c = true := by
  have := (isLabChar_toNat c).mp h
  exact (isDomainChar_toNat c).mpr (by tauto)

theorem isAlphaChar_isDomain {c : Char} (h : isAlphaChar c = true) : isDomainChar c = true := by
  have := (isAlphaChar_toNat c).mp h
  exact (isDomainChar_toNat c).mpr (by tauto)

theorem isAlphaChar_ne_dot {c : Char} (h : isAlphaChar c = true) : c ≠ '.' := by
  have := (isAlphaChar_toNat c).mp h
  intro heq
  rw [(char_eq_iff_toNat c '.').mp heq] at this
  have hd : ('.' : Char).toNat = 46 := rfl
  omega

theorem takeWhile_all {P : Char → Bool} : ∀ (t : Str), (∀ x ∈ t, P x = true) →
    t.takeWhile P = t ∧ t.dropWhile P = [] := by
  intro t
  induction t with
  | nil => intro _; exact ⟨rfl, rfl⟩
  | cons x xs ih =>
    intro h
    have hx := h x (by simp)
    have hxs := ih (fun y hy => h y (by simp [hy]))
    constructor
    · rw [List.takeWhile_cons_of_pos hx, hxs.1]
    · rw [List.dropWhile_cons_of_pos hx, hxs.2]

theorem takeWhile_all_append {P : Char → Bool} : ∀ (t : Str) {c : Char} (rest : Str),
    (∀ x ∈ t, P x = true) → P c = false →
    (t ++ c :: rest).takeWhile P = t ∧ (t ++ c :: rest).dropWhile P = c :: rest := by
  intro t
  induction t with
  | nil =>
    intro c rest _ hc
    constructor
    · exact List.takeWhile_cons_of_neg (by simp [hc])
    · exact List.dropWhile_cons_of_neg (by simp [hc])
  | cons x xs ih =>
    intro c rest h hc
    have hx := h x (by simp)
    have hxs := ih rest (fun y hy => h y (by simp [hy])) hc
    constructor
    · show ((x :: (xs ++ c :: rest)).takeWhile P) = x :: xs
      rw [List.takeWhile_cons_of_pos hx]
      rw [show xs ++ c :: rest = xs ++ c :: rest from rfl]
      rw [hxs.1]
    · show ((x :: (xs ++ c :: rest)).dropWhile P) = c :: rest
      rw [List.dropWhile_cons_of_pos hx]
      exact hxs.2

theorem bestDot_step_miss {dom : Str} {d : Nat} {c : Char} {rs : Str}
    (hdrop : dom.drop (d + 1) = c :: rs) (hc : c ≠ '.') :
    bestDot dom (d + 1) = bestDot dom d := by
  conv_lhs => unfold bestDot
  rw [hdrop]
  split
  · next rest heq =>
    injection heq with h1 h2
    exact absurd h1 hc
  · rfl

theorem bestDot_step_hit {dom : Str} {d : Nat} {rest : Str}
    (hdrop : dom.drop (d + 1) = '.' :: rest)
    (ha : 2 ≤ (rest.takeWhile isAlphaChar).length) :
    bestDot dom (d + 1) = some (d + 1, (rest.takeWhile isAlphaChar).length) := by
  conv_lhs => unfold bestDot
  rw [hdrop]
  split
  · next rest2 heq =>
    injection heq with h1 h2
    subst h2
    rw [if_pos ha]
  · next hno =>
    exact absurd rfl (hno rest)

theorem drop_len_add {l1 l2 : List Char} : ∀ (j : Nat), (l1 ++ l2).drop (l1.length + j) = l2.drop j := by
  induction l1 with
  | nil => intro j; simp
  | cons x xs ih =>
    intro j
    have he : (x :: xs).length + j = (xs.length + j) + 1 := by
      rw [List.length_cons]
      omega
    rw [he]
    show (xs ++ l2).drop (xs.length + j) = l2.drop j
    exact ih j

theorem bestDot_canon {A tld : Str} (hAne : A ≠ [])
    (htlda : ∀ c ∈ tld, isAlphaChar c = true) (htld2 : 2 ≤ tld.length) :
    ∀ j, j ≤ tld.length → bestDot (A ++ '.' :: tld) (A.length + j) = some (A.length, tld.length) := by
  intro j
  induction j with
  | zero =>
    intro _
    cases A with
    | nil => exact absurd rfl hAne
    | cons a as =>
      have hdrop : ((a :: as) ++ '.' :: tld).drop (as.length + 1) = '.' :: tld := by
        simp
      have htw : tld.takeWhile isAlphaChar = tld := (takeWhile_all tld htlda).1
      have ha' : 2 ≤ (tld.takeWhile isAlphaChar).length := by
        rw [htw]
        exact htld2
      show bestDot ((a :: as) ++ '.' :: tld) (as.length + 1) = some (as.length + 1, tld.length)
      rw [bestDot_step_hit hdrop ha']
      rw [htw]
  | succ j ih =>
    intro hj
    have hjlt : j < tld.length := by omega
    have hdrop : (A ++ '.' :: tld).drop (A.length + j + 1) = tld.drop j := by
      have h1 : A ++ '.' :: tld = (A ++ ['.']) ++ tld := by simp
      rw [h1]
      rw [show A.length + j + 1 = (A ++ ['.']).length + j by simp; omega]
      exact drop_len_add j
    have hdropj : tld.drop j = tld[j] :: tld.drop (j + 1) := List.drop_eq_getElem_cons hjlt
    have hca : isAlphaChar tld[j] = true := htlda _ (List.getElem_mem hjlt)
    have hcne : tld[j] ≠ '.' := isAlphaChar_ne_dot hca
    show bestDot (A ++ '.' :: tld) ((A.length + j) + 1) = some (A.length, tld.length)
    rw [bestDot_step_miss (by rw [show (A.length + j) + 1 = A.length + j + 1 from rfl, hdrop]; exact hdropj) hcne]
    exact ih (by omega)

theorem emailMatchAt_eq {s loc r2 : Str}
    (htw : s.takeWhile isLocalChar = loc) (hne : loc ≠ [])
    (hdw : s.dropWhile isLocalChar = '@' :: r2) :
    emailMatchAt s =
      (match bestDot (r2.takeWhile isDomainChar) ((r2.takeWhile isDomainChar).length - 1) with
       | some (d, a) => some (loc ++ '@' :: (r2.takeWhile isDomainChar).take (d + 1 + a),
           r2.drop (d + 1 + a))
       | none => none) := by
  unfold emailMatchAt
  rw [htw, hdw]
  have hie : loc.isEmpty = false := by
    cases loc with
    | nil => exact absurd rfl hne
    | cons x xs => rfl
  simp only [hie]
  rw [if_neg (by simp)]

theorem emailMatchAt_canon {locpart A tld ws3 : Str}
    (hlne : locpart ≠ []) (hlcls : ∀ c ∈ locpart, isLocalChar c = true)
    (hAne : A ≠ []) (hAcls : ∀ c ∈ A, isDomainChar c = true)
    (htlda : ∀ c ∈ tld, isAlphaChar c = true) (htld2 : 2 ≤ tld.length)
    (hws3 : allWSb ws3 = true) :
    emailMatchAt (locpart ++ '@' :: ((A ++ '.' :: tld) ++ ws3))
      = some (locpart ++ '@' :: (A ++ '.' :: tld), ws3) := by
  obtain ⟨htw, hdw⟩ :=
    @takeWhile_all_append isLocalChar locpart '@' ((A ++ '.' :: tld) ++ ws3) hlcls (by decide)
  have hdomall : ∀ c ∈ A ++ '.' :: tld, isDomainChar c = true := by
    intro c hcm
    rw [List.mem_append] at hcm
    rcases hcm with h | h
    · exact hAcls c h
    · rw [List.mem_cons] at h
      rcases h with h | h
      · rw [h]; decide
      · exact isAlphaChar_isDomain (htlda c h)
  have hdom : (((A ++ '.' :: tld) ++ ws3).takeWhile isDomainChar) = A ++ '.' :: tld := by
    cases ws3 with
    | nil =>
      rw [List.append_nil]
      exact (@takeWhile_all isDomainChar (A ++ '.' :: tld) hdomall).1
    | cons w ws =>
      have hw : isDomainChar w = false := isWS_not_domain (allWSb_cons.mp hws3).1
      exact (@takeWhile_all_append isDomainChar (A ++ '.' :: tld) w ws hdomall hw).1
  have hlen1 : (A ++ '.' :: tld).length - 1 = A.length + tld.length := by
    rw [List.length_append, List.length_cons]
    omega
  have hlen2 : A.length + 1 + tld.length = (A ++ '.' :: tld).length := by
    rw [List.length_append, List.length_cons]
    omega
  have hbd : bestDot (A ++ '.' :: tld) ((A ++ '.' :: tld).length - 1)
      = some (A.length, tld.length) := by
    rw [hlen1]
    exact bestDot_canon hAne htlda htld2 tld.length (le_refl _)
  rw [emailMatchAt_eq htw hlne hdw]
  rw [hdom, hbd]
  show some (locpart ++ '@' :: (A ++ '.' :: tld).take (A.length + 1 + tld.length),
      ((A ++ '.' :: tld) ++ ws3).drop (A.length + 1 + tld.length))
    = some (locpart ++ '@' :: (A ++ '.' :: tld), ws3)
  rw [hlen2]
  rw [List.take_length]
  rw [List.drop_left]

theorem emailMatchAt_ws {c : Char} {cs : Str} (hc : isWS c = true) :
    emailMatchAt (c :: cs) = none := by
  have hcl : isLocalChar c = false := isWS_not_local hc
  unfold emailMatchAt
  rw [List.takeWhile_cons_of_neg (by simp [hcl])]
  rfl

theorem goFind_cons_some {f : Nat} {c : Char} {cs m r : Str}
    (h : emailMatchAt (c :: cs) = some (m, r)) :
    goFind (f + 1) (c :: cs) = m :: goFind f r := by
  conv_lhs => unfold goFind
  rw [h]

theorem goFind_cons_none {f : Nat} {c : Char} {cs : Str}
    (h : emailMatchAt (c :: cs) = none) :
    goFind (f + 1) (c :: cs) = goFind f cs := by
  conv_lhs => unfold goFind
  rw [h]

theorem goFind_ws : ∀ (f : Nat) (w : Str), allWSb w = true → goFind f w = [] := by
  intro f
  induction f with
  | zero => intro w _; rfl
  | succ f ih =>
    intro w hw
    cases w with
    | nil => rfl
    | cons c cs =>
      rw [goFind_cons_none (emailMatchAt_ws (allWSb_cons.mp hw).1)]
      exact ih cs (allWSb_cons.mp hw).2

theorem goFind_wsLead : ∀ (w : Str) (g : Nat) (rest : Str), allWSb w = true →
    goFind (w.length + g) (w ++ rest) = goFind g rest := by
  intro w
  induction w with
  | nil =>
    intro g rest _
    show goFind (0 + g) rest = goFind g rest
    rw [Nat.zero_add]
  | cons c cs ih =>
    intro g rest hw
    have he : (c :: cs).length + g = (cs.length + g) + 1 := by
      rw [List.length_cons]
      omega
    rw [he]
    rw [show (c :: cs) ++ rest = c :: (cs ++ rest) from rfl]
    rw [goFind_cons_none (emailMatchAt_ws (allWSb_cons.mp hw).1)]
    exact ih g rest (allWSb_cons.mp hw).2

theorem midsCanon_decomp : ∀ (ms : List (Str × Mark)), ms ≠ [] →
    (∀ q ∈ ms, labelOK q.1 ∧ markOK "dot".toList q.2) →
    ∀ (tld : Str), ∃ A, midsCanon ms tld = A ++ '.' :: tld ∧ A ≠ [] ∧
      (∀ c ∈ A, isDomainChar c = true) := by
  intro ms
  induction ms with
  | nil => intro h _ _; exact absurd rfl h
  | cons q qs ih =>
    intro _ hms tld
    obtain ⟨lab, m⟩ := q
    obtain ⟨⟨hlne, hlcls, _, _⟩, _⟩ := hms (lab, m) (by simp)
    cases qs with
    | nil =>
      refine ⟨lab, ?_, hlne, fun c hc => isLabChar_isDomain (hlcls c hc)⟩
      show lab ++ '.' :: midsCanon [] tld = lab ++ '.' :: tld
      rfl
    | cons q2 qs2 =>
      have hmq : ∀ q ∈ q2 :: qs2, labelOK q.1 ∧ markOK "dot".toList q.2 :=
        fun q hq => hms q (by simp [hq])
      obtain ⟨A2, hA2eq, hA2ne, hA2cls⟩ := ih (by simp) hmq tld
      refine ⟨lab ++ '.' :: A2, ?_, by simp, ?_⟩
      · show lab ++ '.' :: midsCanon (q2 :: qs2) tld = (lab ++ '.' :: A2) ++ '.' :: tld
        rw [hA2eq]
        simp
      · intro c hc
        rw [List.mem_append] at hc
        rcases hc with h | h
        · exact isLabChar_isDomain (hlcls c h)
        · rw [List.mem_cons] at h
          rcases h with h | h
          · rw [h]; decide
          · exact hA2cls c h

theorem emailFindall_canon {o : Obf} (ho : obfOK o) :
    emailFindall (o.ws0 ++ (canonEmail o ++ o.ws3)) = [canonEmail o] := by
  obtain ⟨ws0, locpart, atm, mids, tld, ws3⟩ := o
  obtain ⟨hws0, hloc, hatm, hmidne, hms, htld, hws3⟩ := ho
  obtain ⟨hlne, hlcls, hlna, hlnd⟩ := hloc
  obtain ⟨htld2, htlda, htldna, htldnd⟩ := htld
  obtain ⟨A, hAeq, hAne, hAcls⟩ := midsCanon_decomp mids hmidne hms tld
  have hcanon : canonEmail ⟨ws0, locpart, atm, mids, tld, ws3⟩
      = locpart ++ '@' :: (A ++ '.' :: tld) := by
    show locpart ++ '@' :: midsCanon mids tld = _
    rw [hAeq]
  rw [hcanon]
  show goFind (ws0 ++ ((locpart ++ '@' :: (A ++ '.' :: tld)) ++ ws3)).length
      (ws0 ++ ((locpart ++ '@' :: (A ++ '.' :: tld)) ++ ws3))
    = [locpart ++ '@' :: (A ++ '.' :: tld)]
  rw [show (ws0 ++ ((locpart ++ '@' :: (A ++ '.' :: tld)) ++ ws3)).length
      = ws0.length + ((locpart ++ '@' :: (A ++ '.' :: tld)) ++ ws3).length from by
    rw [List.length_append]]
  rw [goFind_wsLead ws0 _ _ hws0]
  cases locpart with
  | nil => exact absurd rfl hlne
  | cons l0 ls =>
    have hmatch : emailMatchAt (l0 :: (ls ++ '@' :: ((A ++ '.' :: tld) ++ ws3)))
        = some ((l0 :: ls) ++ '@' :: (A ++ '.' :: tld), ws3) :=
      emailMatchAt_canon hlne hlcls hAne hAcls htlda htld2 hws3
    have he2 : ((l0 :: ls) ++ '@' :: (A ++ '.' :: tld)) ++ ws3
        = l0 :: (ls ++ '@' :: ((A ++ '.' :: tld) ++ ws3)) := by
      simp
    rw [he2]
    rw [show (l0 :: (ls ++ '@' :: ((A ++ '.' :: tld) ++ ws3))).length
        = (ls ++ '@' :: ((A ++ '.' :: tld) ++ ws3)).length + 1 from by
      rw [List.length_cons]]
    rw [goFind_cons_some hmatch]
    rw [goFind_ws _ ws3 hws3]

/-- C6 counterexample: the address `j@x.at.co`, obfuscated with the
allowed markers `(at)` and spaced `dot`, is not recovered: the spaced
at-substitution also fires on the literal domain label `at` left
whitespace-adjacent by the spaced dot-markers, the corrupted string
`j@x dot@dot co` contains no email match, while the intended address
itself does match the email pattern. -/
theorem claim_C6_counterexample :
    renderObf obfCx = "j (at) x dot at dot co".toList ∧
    canonEmail obfCx = "j@x.at.co".toList ∧
    deobfuscate (renderObf obfCx) = "j@x dot@dot co".toList ∧
    emailFindall (deobfuscate (renderObf obfCx)) = [] ∧
    emailFindall ("j@x.at.co".toList) = ["j@x.at.co".toList] :=
  ⟨by decide, by decide, by decide, by decide, by decide⟩

/-- C6 (amended): the at-substitutions run before the dot-substitutions
(both before any pattern matching), and de-obfuscation followed by the
email scan recovers the address exactly for every rendering whose
local part, domain labels and TLD are non-empty, drawn from the email
pattern's character classes, and none of which itself spells the bare
word `at` or `dot` — markers in any combination of the bracketed,
parenthesised and spaced forms, any letter case, arbitrary surrounding
whitespace. -/
theorem claim_C6_amended :
    (∀ t : Str, deobfuscate t = applyDotPats (applyAtPats t)) ∧
    (∀ o : Obf, obfOK o →
      emailFindall (deobfuscate (renderObf o)) = [canonEmail o]) := by
  constructor
  · intro t
    rfl
  · intro o ho
    rw [deobfuscate_renderObf ho]
    exact emailFindall_canon ho

/-- Witness: the amended C6 theorem applied to a concrete mixed-case
rendering of `John9@x.CoM`, and to a concrete ordering input. -/
theorem claim_C6_amended_witness :
    obfOK obfWit ∧
    emailFindall (deobfuscate (renderObf obfWit)) = [canonEmail obfWit] ∧
    deobfuscate ("a".toList) = applyDotPats (applyAtPats ("a".toList)) := by
  have hOK : obfOK obfWit :=
    ⟨by decide,
     ⟨by decide, by decide, by decide, by decide⟩,
     ⟨by decide, by decide, by decide⟩,
     by decide,
     by
       intro q hq
       simp [obfWit] at hq
       rw [hq]
       exact ⟨⟨by decide, by decide, by decide, by decide⟩,
         ⟨by decide, by decide, by decide, by decide, by decide⟩⟩,
     ⟨by decide, by decide, by decide, by decide⟩,
     by decide⟩
  exact ⟨hOK, claim_C6_amended.2 obfWit hOK, claim_C6_amended.1 ("a".toList)⟩
